import Mathlib

/-!
Shallow embedding of the Resilient Content Acquisition & Extraction Engine
(`services/content-processor/src/processors/text_extractor.py`, plus the
keyword extractor in `metadata_extractor.py` and the conditional-request
logic in `services/news-fetcher/src/fetchers/rss_fetcher.py` /
`utils/state_store.py`).

Python strings are modelled as Lean `String` (a list of characters);
`str.lower()` is modelled on the ASCII range, which is the only range the
code relies on (scheme names, content types, interstitial phrases).
External libraries (requests/httpx/cloudscraper transports, trafilatura,
newspaper3k, readability, BeautifulSoup, feedparser) are modelled as
oracle functions supplied through an environment record; `none` stands for
"the library is missing, returned nothing, or raised" exactly where the
source catches those cases.  All repository-owned logic (validation,
ordering, retry/backoff, thresholds, state updates) is embedded directly.
-/

namespace News

/-! ### ASCII case folding (models Python `str.lower()` on the ASCII range) -/

def asciiLower (c : Char) : Char :=
  c.toLower

def lowerStr (s : String) : String :=
  ⟨s.data.map asciiLower⟩

/-! ### Python string helpers -/

/-- Membership test `pat in s` of Python (substring containment). -/
def pyContains (s pat : String) : Bool :=
  decide (pat.data <:+: s.data)

/-- Slice `s[:n]` of Python. -/
def pyTake (n : Nat) (s : String) : String :=
  ⟨s.data.take n⟩

/-- Characters stripped by Python `str.strip()` (ASCII whitespace). -/
def isPySpace (c : Char) : Bool :=
  c == ' ' || c == '\t' || c == '\n' || c == '\x0d' || c == '\x0b' || c == '\x0c'

/-- Python `str.strip()` with no argument. -/
def pyStrip (s : String) : String :=
  ⟨((s.data.dropWhile isPySpace).reverse.dropWhile isPySpace).reverse⟩

/-- Truthiness of an `Optional[str]` value (`None` and `""` are falsy). -/
def optTruthy : Option String → Bool
  | some s => s != ""
  | none => false

/-! ### URL normalization
Models `urllib.parse.urlsplit` / `urlsplit`'s inverse `urlunsplit` as used by
`TextExtractor._normalized_url`: scheme detection and lowercasing, netloc
splitting at the first of `/?#` after `//`, fragment split at the first `#`,
query split at the first `?`.  The stdlib's control-character sanitisation
and IPv6-bracket validation are not exercised by any claim and are omitted. -/

def schemeChar (c : Char) : Bool :=
  c.isAlpha || c.isDigit || c == '+' || c == '-' || c == '.'

/-- Validity check CPython applies to the text before the first `:` -/
def isSchemeName : List Char → Bool
  | [] => false
  | c :: cs => c.isAlpha && cs.all schemeChar

/-- Scheme detection of `urlsplit`: the text before the first `:` becomes the
(lowercased) scheme when it starts with an ASCII letter and continues with
scheme characters; otherwise the URL is left whole. -/
def splitScheme (u : List Char) : List Char × List Char :=
  let pre := u.takeWhile (· != ':')
  match u.dropWhile (· != ':') with
  | [] => ([], u)
  | _ :: rest =>
    if isSchemeName pre then (pre.map asciiLower, rest) else ([], u)

def notNetlocDelim (c : Char) : Bool :=
  !(c == '/' || c == '?' || c == '#')

/-- Split at the first occurrence of `sep` (Python `str.split(sep, 1)`);
`none` in the second component means `sep` does not occur. -/
def splitOnceChar (sep : Char) (u : List Char) : List Char × Option (List Char) :=
  match u.dropWhile (· != sep) with
  | [] => (u, none)
  | _ :: rest => (u.takeWhile (· != sep), some rest)

structure UrlParts where
  scheme : List Char
  netloc : List Char
  path : List Char
  query : List Char
  fragment : List Char
deriving DecidableEq

/-- Fragment stage of `urlsplit`: `if '#' in url: url, fragment = url.split('#', 1)`. -/
def splitFragment (u : List Char) : List Char × List Char :=
  match splitOnceChar '#' u with
  | (a, some b) => (a, b)
  | (a, none) => (a, [])

/-- Query stage of `urlsplit`: `if '?' in url: url, query = url.split('?', 1)`. -/
def splitQuery (u : List Char) : List Char × List Char :=
  match splitOnceChar '?' u with
  | (a, some b) => (a, b)
  | (a, none) => (a, [])

/-- Netloc, fragment and query stages of `urlsplit` (everything after the
scheme has been removed). -/
def urlsplitRest (u1 : List Char) : UrlParts :=
  let nl :=
    if u1.take 2 = ['/', '/'] then
      ((u1.drop 2).takeWhile notNetlocDelim, (u1.drop 2).dropWhile notNetlocDelim)
    else ([], u1)
  let fr := splitFragment nl.2
  let pq := splitQuery fr.1
  ⟨[], nl.1, pq.1, pq.2, fr.2⟩

def urlsplitCore (u : List Char) : UrlParts :=
  let s := splitScheme u
  { urlsplitRest s.2 with scheme := s.1 }

/-- Schemes for which `urlunsplit` re-introduces the `//` netloc marker
(`urllib.parse.uses_netloc`). -/
def usesNetloc : List (List Char) :=
  ["", "ftp", "http", "gopher", "nntp", "telnet", "imap", "wais", "file", "mms",
   "https", "shttp", "snews", "prospero", "rtsp", "rtsps", "rtspu", "rsync",
   "svn", "svn+ssh", "sftp", "nfs", "git", "git+ssh", "ws", "wss"].map String.data

/-- The `if url and url[:1] != '/': url = '/' + url` step of `urlunsplit`. -/
def slashPrefix (p : List Char) : List Char :=
  if p ≠ [] ∧ p.take 1 ≠ ['/'] then '/' :: p else p

/-- The `if query: url = url + '?' + query` step of `urlunsplit`. -/
def queryPart (q : List Char) : List Char :=
  if q ≠ [] then '?' :: q else []

/-- The `if fragment: url = url + '#' + fragment` step of `urlunsplit`. -/
def fragPart (f : List Char) : List Char :=
  if f ≠ [] then '#' :: f else []

def urlunsplitCore (p : UrlParts) : List Char :=
  let url1 :=
    if p.netloc ≠ [] ∨ (p.scheme ≠ [] ∧ p.scheme ∈ usesNetloc ∧ p.path.take 2 ≠ ['/', '/']) then
      '/' :: '/' :: (p.netloc ++ slashPrefix p.path)
    else p.path
  let url2 := if p.scheme ≠ [] then p.scheme ++ ':' :: url1 else url1
  (url2 ++ queryPart p.query) ++ fragPart p.fragment

/-- Model of `TextExtractor._normalized_url`: re-assemble with the scheme
defaulted to `https`, the netloc/path/query kept, and the fragment dropped. -/
def normalized_url (u : String) : String :=
  let p := urlsplitCore u.data
  ⟨urlunsplitCore ⟨if p.scheme = [] then "https".data else p.scheme, p.netloc, p.path, p.query, []⟩⟩

/-! ### Fetch engine (`TextExtractor.fetch_html` and its transports) -/

/-- Response as seen by the repository code: content-type and server headers,
decoded body text, and HTTP status. -/
structure HttpResp where
  contentType : Option String
  server : Option String
  body : String
  status : Nat
deriving DecidableEq

/-- Truthiness of a `requests.Response`: `Response.__bool__` returns
`self.ok`, i.e. `status_code < 400`. -/
def respOk (r : HttpResp) : Bool :=
  r.status < 400

/-- Content-type is neither HTML-like nor does the first 2KB of the body
contain an `<html` marker (the rejection test shared by all transports). -/
def nonHtmlResponse (r : HttpResp) : Bool :=
  let ctype := lowerStr (r.contentType.getD "")
  !(pyContains ctype "text/html") && !(pyContains ctype "application/xhtml+xml") &&
    !(pyContains (lowerStr (pyTake 2000 r.body)) "<html")

/-- Body validation of `TextExtractor._requests_fetch`: reject non-HTML
responses, then `text = resp.text if resp and len(resp.text) >= 100 else None`
(where `resp` is truthy only when `status < 400`). -/
def requestsValidate (r : HttpResp) : Option String :=
  if nonHtmlResponse r then none
  else if respOk r ∧ 100 ≤ r.body.length then some r.body else none

/-- Body validation of `TextExtractor._httpx_fetch`; an `httpx.Response` does
not override truthiness, so only the length gate applies. -/
def httpxValidate (r : HttpResp) : Option String :=
  if nonHtmlResponse r then none
  else if 100 ≤ r.body.length then some r.body else none

/-- Body validation of `TextExtractor._cloudscraper_fetch`; cloudscraper
returns `requests.Response` objects, so truthiness is `status < 400`. -/
def csValidate (r : HttpResp) : Option String :=
  if nonHtmlResponse r then none
  else if respOk r ∧ 100 ≤ r.body.length then some r.body else none

/-- Model of the module-level `looks_like_cloudflare`.  The guard
`if not resp: return False` tests `requests.Response` truthiness, which is
`status_code < 400` — not `resp is None`. -/
def looks_like_cloudflare (r : HttpResp) : Bool :=
  if !(respOk r) then false
  else
    let server := lowerStr (r.server.getD "")
    if pyContains server "cloudflare" then true
    else
      let snippet := lowerStr (pyTake 2000 r.body)
      pyContains snippet "attention required" || pyContains snippet "cloudflare" ||
        pyContains snippet "just a moment"

/-- Model of the module-level `jitter`: `random.uniform(lo, hi)` with
`lo = max(0, base - spread)`, `hi = base + spread`, where the library draw is
`lo + (hi - lo) * u` for a unit draw `u`.  Arithmetic is modelled exactly
over `ℚ`. -/
def jitterQ (base spread u : ℚ) : ℚ :=
  let lo := max 0 (base - spread)
  let hi := base + spread
  lo + (hi - lo) * u

/-- Transport oracles: for each (url, attempt) the response delivered by the
requests / httpx / cloudscraper transport, `none` where the source sees a
missing library, a raised-and-caught exception, or a timeout; plus the unit
draw consumed by the backoff jitter of each attempt. -/
structure FetchEnv where
  req : String → Nat → Option HttpResp
  hx : String → Nat → Option HttpResp
  cs : String → Nat → Option HttpResp
  draw : Nat → ℚ

/-- One `_cloudscraper_fetch` call followed by the
`text and status and status < 400` acceptance guard. -/
def csTry (env : FetchEnv) (u : String) (n : Nat) : Option String :=
  match env.cs u n with
  | none => none
  | some r =>
    let t := csValidate r
    if optTruthy t ∧ r.status ≠ 0 ∧ r.status < 400 then t else none

/-- Result of one attempt of the fetch loop: the HTML produced (if any),
whether the early in-attempt cloudscraper escalation fired, and the URL
handed to each transport invocation. -/
structure AttemptTrace where
  result : Option String
  early : Bool
  requested : List String
deriving DecidableEq

/-- Strategies 2 and 3 of one attempt (httpx, then the cloudscraper
fallback), entered after strategy 1 produced no usable HTML. -/
def laterStrategies (env : FetchEnv) (u : String) (n : Nat) (early : Bool)
    (reqs : List String) : AttemptTrace :=
  let tH :=
    match env.hx u n with
    | none => none
    | some r =>
      let t := httpxValidate r
      if optTruthy t ∧ r.status ≠ 0 ∧ r.status < 400 then t else none
  match tH with
  | some t => ⟨some t, early, reqs ++ [u]⟩
  | none => ⟨csTry env u n, early, reqs ++ [u, u]⟩

/-- One iteration of the attempt loop in `TextExtractor.fetch_html`:
requests first, early cloudscraper escalation on `403 and
looks_like_cloudflare`, then httpx, then the cloudscraper fallback. -/
def runAttempt (env : FetchEnv) (u : String) (n : Nat) : AttemptTrace :=
  match env.req u n with
  | none => laterStrategies env u n false [u]
  | some r =>
    let text := requestsValidate r
    if optTruthy text ∧ r.status ≠ 0 ∧ r.status < 400 then
      ⟨text, false, [u]⟩
    else if r.status = 403 ∧ looks_like_cloudflare r then
      match csTry env u n with
      | some t2 => ⟨some t2, true, [u, u]⟩
      | none => laterStrategies env u n true [u, u]
    else laterStrategies env u n false [u]

/-- Observable trace of a whole `fetch_html` call: final result, the backoff
sleeps performed (attempt number and duration), the attempts in which the
early cloudscraper escalation fired, and the URLs handed to transports. -/
structure FetchTrace where
  result : Option String
  sleeps : List (Nat × ℚ)
  earlyCS : List Nat
  requested : List String

/-- The attempt loop of `fetch_html` over the listed attempt numbers; a
failed attempt sleeps `jitter(backoff_factor * attempt)` before the next. -/
def fetchAttempts (env : FetchEnv) (bf : ℚ) (u : String) : List Nat → FetchTrace
  | [] => ⟨none, [], [], []⟩
  | n :: rest =>
    let a := runAttempt env u n
    match a.result with
    | some t => ⟨some t, [], if a.early then [n] else [], a.requested⟩
    | none =>
      let s := jitterQ (bf * n) (3/5) (env.draw n)
      let tr := fetchAttempts env bf u rest
      ⟨tr.result, (n, s) :: tr.sleeps, (if a.early then [n] else []) ++ tr.earlyCS,
        a.requested ++ tr.requested⟩

/-- Model of `TextExtractor.fetch_html`: normalize the URL, then run
attempts `1 .. max_retries`. -/
def fetch_html (env : FetchEnv) (bf : ℚ) (maxRetries : Nat) (url : String) : FetchTrace :=
  fetchAttempts env bf (normalized_url url) (List.range' 1 maxRetries)

/-! ### Extraction strategy chain -/

/-- The article record each extraction method returns (the Python dict). -/
structure Candidate where
  title : String
  content : String
  author : Option String
  date : Option String
  description : Option String
  image_url : Option String
  keywords : List String
  method : String
deriving DecidableEq

/-- Parsed JSON fields trafilatura delivers (`none` also stands for a JSON
`null`, which the source folds into the same defaults). -/
structure TrafData where
  title : Option String
  text : Option String
  author : Option String
  date : Option String
  description : Option String
  image : Option String
deriving DecidableEq

/-- Fields newspaper3k's `Article` carries after `parse()`. -/
structure NewsData where
  title : String
  text : Option String
  authors : List String
  publishDateIso : Option String
  metaDescription : Option String
  topImage : Option String
  keywords : List String
deriving DecidableEq

/-- Title and cleaned text derived from readability's summary document. -/
structure ReadabilityData where
  title : String
  text : String
deriving DecidableEq

/-- Title (h1/title fallback) and raw selected content (article/main,
content-ish div, or joined paragraphs) delivered by the BeautifulSoup DOM. -/
structure SoupData where
  title : String
  content : String
deriving DecidableEq

/-- Library oracles for the four extraction methods; an outer `none` models
the optional dependency being missing, an inner `none` models the library
returning nothing or raising (both are caught and degrade to no candidate). -/
structure Libs where
  trafilatura : Option (String → String → Bool → Option TrafData)
  newspaper : Option (String → String → Option NewsData)
  readability : Option (String → Option ReadabilityData)
  bs4 : Option (String → Option SoupData)

/-- Inner `_run_trafilatura(favor_precision)` of
`TextExtractor.extract_with_trafilatura`. -/
def runTrafilatura (lib : String → String → Bool → Option TrafData)
    (url html : String) (favorPrecision : Bool) : Option Candidate :=
  match lib html url favorPrecision with
  | none => none
  | some data =>
    let title := data.title.getD ""
    let content := pyStrip (data.text.getD "")
    if content ≠ "" ∧ 100 < content.length then
      some { title := title, content := content, author := data.author, date := data.date,
             description := some (data.description.getD ""), image_url := data.image,
             keywords := [], method := "trafilatura" }
    else none

/-- Method 1: trafilatura, precision pass first, recall pass only if the
precision pass produced nothing. -/
def extract_with_trafilatura (libs : Libs) (url html : String) : Option Candidate :=
  match libs.trafilatura with
  | none => none
  | some lib =>
    match runTrafilatura lib url html true with
    | some result => some result
    | none => runTrafilatura lib url html false

/-- Method 2: newspaper3k. -/
def extract_with_newspaper (libs : Libs) (url html : String) : Option Candidate :=
  match libs.newspaper with
  | none => none
  | some lib =>
    match lib url html with
    | none => none
    | some a =>
      let text := pyStrip (a.text.getD "")
      if text ≠ "" ∧ 100 < text.length then
        some { title := a.title, content := text,
               author := if a.authors ≠ [] then some (String.intercalate ", " a.authors) else none,
               date := a.publishDateIso,
               description := a.metaDescription,
               image_url := a.topImage,
               keywords := if a.keywords ≠ [] then a.keywords.take 10 else [],
               method := "newspaper3k" }
      else none

/-- Method 3: readability. -/
def extract_with_readability (libs : Libs) (html : String) : Option Candidate :=
  match libs.readability with
  | none => none
  | some lib =>
    match lib html with
    | none => none
    | some d =>
      let text := d.text
      let title := pyStrip d.title
      if text ≠ "" ∧ 100 < text.length then
        some { title := title, content := text, author := none, date := none,
               description := none, image_url := none, keywords := [],
               method := "readability" }
      else none

/-- Python `str.split("\n")`: split at every newline, keeping empty pieces. -/
def splitNl : List Char → List Char → List (List Char)
  | [], acc => [acc.reverse]
  | c :: rest, acc =>
    if c = '\n' then acc.reverse :: splitNl rest [] else splitNl rest (c :: acc)

/-- Line cleanup of `extract_with_beautifulsoup`:
`"\n".join(line.strip() for line in content.split("\n") if line.strip())`. -/
def normalizeLines (s : String) : String :=
  ⟨List.intercalate ['\n']
    (((splitNl s.data []).map (fun l => (pyStrip ⟨l⟩).data)).filter (· != []))⟩

/-- Method 4: BeautifulSoup structural fallback. -/
def extract_with_beautifulsoup (libs : Libs) (html : String) : Option Candidate :=
  match libs.bs4 with
  | none => none
  | some lib =>
    match lib html with
    | none => none
    | some d =>
      let content := normalizeLines d.content
      if content ≠ "" ∧ 100 < content.length then
        some { title := d.title, content := content, author := none, date := none,
               description := none, image_url := none, keywords := [],
               method := "beautifulsoup" }
      else none

/-- Chain outcome plus the list of methods whose `fn()` was invoked
(mirrors the `extraction_method_attempt` instrumentation log). -/
structure ChainTrace where
  result : Option Candidate
  attempted : List String
deriving DecidableEq

/-- The `for name, fn in methods` loop of `TextExtractor.extract`: return the
first result whose `content` is truthy, otherwise fall through. -/
def runChain : List (String × Option Candidate) → ChainTrace
  | [] => ⟨none, []⟩
  | (nm, r) :: rest =>
    match r with
    | some c =>
      if c.content ≠ "" then ⟨some c, [nm]⟩
      else
        let t := runChain rest
        ⟨t.result, nm :: t.attempted⟩
    | none =>
      let t := runChain rest
      ⟨t.result, nm :: t.attempted⟩

/-- The fixed precision-descending method list of `TextExtractor.extract`. -/
def extractMethods (libs : Libs) (url html : String) : List (String × Option Candidate) :=
  [("trafilatura", extract_with_trafilatura libs url html),
   ("newspaper3k", extract_with_newspaper libs url html),
   ("readability", extract_with_readability libs html),
   ("beautifulsoup", extract_with_beautifulsoup libs html)]

/-- The extraction chain of `TextExtractor.extract` applied to fetched HTML. -/
def extractChain (libs : Libs) (url html : String) : ChainTrace :=
  runChain (extractMethods libs url html)

/-- Model of the public `TextExtractor.extract`: fetch, bail out on falsy
HTML, then run the chain on the original (un-normalized) URL and the HTML. -/
def extract (libs : Libs) (env : FetchEnv) (bf : ℚ) (maxRetries : Nat)
    (url : String) : Option Candidate :=
  match (fetch_html env bf maxRetries url).result with
  | none => none
  | some html => if html = "" then none else (extractChain libs url html).result

/-! ### Keyword extraction (`MetadataExtractor.extract_keywords`) -/

def stopWords : List String :=
  ["the", "a", "an", "and", "or", "but", "in", "on", "at",
   "to", "for", "of", "with", "by", "from", "as", "is", "was",
   "are", "were", "been", "be", "have", "has", "had", "do",
   "does", "did", "will", "would", "could", "should", "may",
   "might", "can", "this", "that", "these", "those", "i", "you",
   "he", "she", "it", "we", "they", "what", "which", "who",
   "when", "where", "why", "how", "said", "says", "more", "new",
   "about", "into", "through", "during", "before", "after"]

/-- `''.join(c for c in word if c.isalnum())` on the ASCII range. -/
def cleanWord (w : String) : String :=
  ⟨w.data.filter Char.isAlphanum⟩

/-- `word_freq[word] = word_freq.get(word, 0) + 1` on an insertion-ordered
association list (Python dicts preserve insertion order). -/
def bumpFreq : List (String × Nat) → String → List (String × Nat)
  | [], w => [(w, 1)]
  | (k, v) :: rest, w =>
    if k = w then (k, v + 1) :: rest else (k, v) :: bumpFreq rest w

/-- The word-frequency accumulation loop of `extract_keywords`. -/
def buildFreq (ws : List String) : List (String × Nat) :=
  ws.foldl (fun m w =>
    let cw := cleanWord w
    if 3 < cw.length ∧ cw ∉ stopWords then bumpFreq m cw else m) []

/-- Model of `MetadataExtractor.extract_keywords`: lowercase, whitespace
split, clean and filter words, count, stable-sort by frequency descending,
and keep the first `maxKeywords` words. -/
def extract_keywords (text : String) (maxKeywords : Nat) : List String :=
  let words := ((lowerStr text).split isPySpace).filter (· != "")
  let sorted := (buildFreq words).mergeSort (fun a b => decide (b.2 ≤ a.2))
  (sorted.take maxKeywords).map Prod.fst

/-! ### RSS conditional-request state (`RSSFetcher.fetch_feed` +
`FeedHTTPState`) -/

/-- The per-URL `last_modified` component of `FeedHTTPState.state` as an
insertion-ordered association list (the `last_fetch` timestamp the setter
also records is wall-clock bookkeeping no claim touches). -/
abbrev LMState := List (String × String)

/-- `FeedHTTPState.get_last_modified`: `state.get(url, {}).get('last_modified', '')`. -/
def getLastModified (st : LMState) (url : String) : String :=
  match st.lookup url with
  | some v => v
  | none => ""

/-- `FeedHTTPState.set_last_modified`: insert or overwrite the entry. -/
def setLastModified (st : LMState) (url lm : String) : LMState :=
  match st.lookup url with
  | some _ => st.map (fun p => if p.1 = url then (url, lm) else p)
  | none => st ++ [(url, lm)]

/-- Distinct exit paths of `RSSFetcher.fetch_feed` (each has its own log
statement in the source). -/
inductive FeedOutcome where
  | fetchError
  | notModified
  | httpError
  | badContentType
  | noEntries
  | ok
deriving DecidableEq

/-- Response to a feed request plus the feedparser oracle's view of its
content (title and entries); `α` is the abstract entry type. -/
structure FeedResp (α : Type) where
  status : Nat
  contentType : String
  lastModified : Option String
  parsedTitle : Option String
  parsedEntries : List α

/-- Return value of the modelled `fetch_feed` plus its state and the
`If-Modified-Since` header it sent. -/
structure FeedFetchResult (α : Type) where
  feedTitle : String
  entries : List α
  state : LMState
  ifModifiedSinceSent : Option String
  outcome : FeedOutcome

/-- Model of `RSSFetcher.fetch_feed`: send `If-Modified-Since` when the
state has a (truthy) value for the URL; 304 → empty result; non-200 →
empty; non-XML/RSS content type → empty; update the state whenever the
response carries a truthy `last-modified` header; empty parse → empty;
otherwise return title and entries.  `resp = none` models the
timeout/exception paths. -/
def fetch_feed {α : Type} (st : LMState) (url : String)
    (resp : Option (FeedResp α)) : FeedFetchResult α :=
  let lm := getLastModified st url
  let ims := if lm ≠ "" then some lm else none
  match resp with
  | none => ⟨"", [], st, ims, .fetchError⟩
  | some r =>
    if r.status = 304 then ⟨"", [], st, ims, .notModified⟩
    else if r.status ≠ 200 then ⟨"", [], st, ims, .httpError⟩
    else
      let ct := lowerStr r.contentType
      if ¬ (pyContains ct "xml" = true) ∧ ¬ (pyContains ct "rss" = true) then
        ⟨"", [], st, ims, .badContentType⟩
      else
        let lmv := r.lastModified.getD ""
        let st' := if lmv ≠ "" then setLastModified st url lmv else st
        if r.parsedEntries.isEmpty then ⟨"", [], st', ims, .noEntries⟩
        else ⟨r.parsedTitle.getD "Unknown Feed", r.parsedEntries, st', ims, .ok⟩


/-! ### Concrete fixtures used to exercise the model -/

/-- A 150-character body, above the 100-character acceptance floor. -/
def longText : String :=
  ⟨List.replicate 150 'a'⟩

def trafLongLib : String → String → Bool → Option TrafData :=
  fun _ _ _ => some ⟨some "T", some longText, none, none, none, none⟩

def trafShortLib : String → String → Bool → Option TrafData :=
  fun _ _ _ => some ⟨some "T", some "tiny", none, none, none, none⟩

def newsLongLib : String → String → Option NewsData :=
  fun _ _ => some ⟨"T", some longText, [], none, none, none,
    ["k01", "k02", "k03", "k04", "k05", "k06", "k07", "k08", "k09", "k10", "k11", "k12"]⟩

def newsShortLib : String → String → Option NewsData :=
  fun _ _ => some ⟨"T", some "tiny", [], none, none, none, []⟩

def readLongLib : String → Option ReadabilityData :=
  fun _ => some ⟨"T", longText⟩

def readShortLib : String → Option ReadabilityData :=
  fun _ => some ⟨"T", "tiny"⟩

def bsLongLib : String → Option SoupData :=
  fun _ => some ⟨"T", longText⟩

def bsShortLib : String → Option SoupData :=
  fun _ => some ⟨"T", "tiny"⟩

/-- Only trafilatura installed, returning a long article. -/
def libsTrafLong : Libs :=
  ⟨some trafLongLib, none, none, none⟩

/-- All four libraries installed, each extracting only 4 characters. -/
def libsShort : Libs :=
  ⟨some trafShortLib, some newsShortLib, some readShortLib, some bsShortLib⟩

/-- Only newspaper3k installed, returning a long article with 12 keywords. -/
def libsNewsLong : Libs :=
  ⟨none, some newsLongLib, none, none⟩

/-- Only readability installed, returning a long article. -/
def libsReadLong : Libs :=
  ⟨none, none, some readLongLib, none⟩

/-- Only BeautifulSoup installed, returning a long article. -/
def libsBsLong : Libs :=
  ⟨none, none, none, some bsLongLib⟩

/-- The winning candidate produced by `trafLongLib`. -/
def candLong : Candidate :=
  { title := "T", content := longText, author := none, date := none,
    description := some "", image_url := none, keywords := [], method := "trafilatura" }

/-- The winning candidate produced by `newsLongLib` (12 keywords truncated
to 10). -/
def candNews : Candidate :=
  { title := "T", content := longText, author := none, date := none, description := none,
    image_url := none,
    keywords := ["k01", "k02", "k03", "k04", "k05", "k06", "k07", "k08", "k09", "k10"],
    method := "newspaper3k" }

/-- The winning candidate produced by `readLongLib`. -/
def candRead : Candidate :=
  { title := "T", content := longText, author := none, date := none, description := none,
    image_url := none, keywords := [], method := "readability" }

/-- The winning candidate produced by `bsLongLib`. -/
def candBs : Candidate :=
  { title := "T", content := longText, author := none, date := none, description := none,
    image_url := none, keywords := [], method := "beautifulsoup" }

/-- Transport environment in which every request raises (is caught). -/
def envFail : FetchEnv :=
  ⟨fun _ _ => none, fun _ _ => none, fun _ _ => none, fun _ => 1/2⟩

/-- A JSON response: HTTP 200 but not HTML-like. -/
def jsonResp : HttpResp :=
  ⟨some "application/json", none, "plain text body with no markup at all", 200⟩

/-- Transport environment in which every transport returns `jsonResp`. -/
def envJson : FetchEnv :=
  ⟨fun _ _ => some jsonResp, fun _ _ => some jsonResp, fun _ _ => some jsonResp, fun _ => 0⟩

/-- A Cloudflare interstitial: HTTP 403, `Server: cloudflare`, challenge body. -/
def cloudflare403 : HttpResp :=
  ⟨some "text/html", some "cloudflare", "Just a moment...", 403⟩

/-- A 404 feed response that carries a `Last-Modified` header. -/
def lmResp404 : FeedResp Unit :=
  ⟨404, "application/rss+xml", some "Tue, 01 Jan 2024 00:00:00 GMT", some "Feed", [()]⟩

/-- A successful feed response that carries a `Last-Modified` header. -/
def lmResp200 : FeedResp Unit :=
  ⟨200, "application/rss+xml", some "Tue, 01 Jan 2024 00:00:00 GMT", some "Feed", [()]⟩

/-- A 304 Not Modified feed response. -/
def lmResp304 : FeedResp Unit :=
  ⟨304, "application/rss+xml", none, none, []⟩

/-! ## Helper lemmas: ASCII lowering -/

theorem toNat_ofNat_valid (n : Nat) (h : n < 55296) : (Char.ofNat n).toNat = n := by
  rw [Char.ofNat, dif_pos (Or.inl h)]
  rfl

theorem isAlpha_iff (c : Char) :
    c.isAlpha = true ↔ (65 ≤ c.toNat ∧ c.toNat ≤ 90) ∨ (97 ≤ c.toNat ∧ c.toNat ≤ 122) := by
  unfold Char.isAlpha Char.isUpper Char.isLower
  simp only [Bool.or_eq_true, Bool.and_eq_true, decide_eq_true_eq]
  constructor
  · rintro (⟨h1, h2⟩ | ⟨h1, h2⟩)
    · exact Or.inl ⟨by exact_mod_cast h1, by exact_mod_cast h2⟩
    · exact Or.inr ⟨by exact_mod_cast h1, by exact_mod_cast h2⟩
  · rintro (⟨h1, h2⟩ | ⟨h1, h2⟩)
    · exact Or.inl ⟨by exact_mod_cast h1, by exact_mod_cast h2⟩
    · exact Or.inr ⟨by exact_mod_cast h1, by exact_mod_cast h2⟩

theorem asciiLower_idem (c : Char) : asciiLower (asciiLower c) = asciiLower c := by
  unfold asciiLower Char.toLower
  by_cases h : 65 ≤ c.toNat ∧ c.toNat ≤ 90
  · have hv : (Char.ofNat (c.toNat + 32)).toNat = c.toNat + 32 :=
      toNat_ofNat_valid _ (by omega)
    simp only [if_pos h, hv]
    rw [if_neg (by omega)]
  · simp only [if_neg h]

theorem isAlpha_asciiLower (c : Char) : (asciiLower c).isAlpha = c.isAlpha := by
  unfold asciiLower Char.toLower
  by_cases h : 65 ≤ c.toNat ∧ c.toNat ≤ 90
  · have hv : (Char.ofNat (c.toNat + 32)).toNat = c.toNat + 32 :=
      toNat_ofNat_valid _ (by omega)
    rw [if_pos h, (isAlpha_iff _).mpr (Or.inr (by omega)), (isAlpha_iff c).mpr (Or.inl h)]
  · rw [if_neg h]

theorem schemeChar_asciiLower (c : Char) : schemeChar (asciiLower c) = schemeChar c := by
  by_cases h : 65 ≤ c.toNat ∧ c.toNat ≤ 90
  · have h1 : (asciiLower c).isAlpha = true := by
      rw [isAlpha_asciiLower]
      exact (isAlpha_iff c).mpr (Or.inl h)
    have h2 : c.isAlpha = true := (isAlpha_iff c).mpr (Or.inl h)
    simp [schemeChar, h1, h2]
  · unfold asciiLower Char.toLower
    rw [if_neg h]

theorem map_asciiLower_idem (l : List Char) :
    (l.map asciiLower).map asciiLower = l.map asciiLower := by
  induction l with
  | nil => rfl
  | cons a t ih => simp [asciiLower_idem, ih]

theorem all_congr_fun {p q : α → Bool} (h : ∀ a, p a = q a) (l : List α) :
    l.all p = l.all q := by
  induction l with
  | nil => rfl
  | cons a t ih => simp [List.all_cons, h a, ih]

theorem all_imp_fun {p q : α → Bool} (h : ∀ a, p a = true → q a = true) (l : List α) :
    l.all p = true → l.all q = true := by
  induction l with
  | nil => simp
  | cons a t ih =>
    simp only [List.all_cons, Bool.and_eq_true]
    exact fun hc => ⟨h a hc.1, ih hc.2⟩

theorem isSchemeName_map_lower (s : List Char) :
    isSchemeName (s.map asciiLower) = isSchemeName s := by
  cases s with
  | nil => rfl
  | cons c cs =>
    simp only [List.map_cons, isSchemeName, isAlpha_asciiLower, List.all_map]
    congr 1
    exact all_congr_fun (fun a => by simp [Function.comp, schemeChar_asciiLower]) cs

/-! ## Helper lemmas: takeWhile / dropWhile -/

theorem takeWhile_append_all {p : α → Bool} {l₁ : List α} (l₂ : List α)
    (h : l₁.all p = true) : (l₁ ++ l₂).takeWhile p = l₁ ++ l₂.takeWhile p := by
  induction l₁ with
  | nil => rfl
  | cons a t ih =>
    simp only [List.all_cons, Bool.and_eq_true] at h
    simp [List.takeWhile_cons, h.1, ih h.2]

theorem dropWhile_append_all {p : α → Bool} {l₁ : List α} (l₂ : List α)
    (h : l₁.all p = true) : (l₁ ++ l₂).dropWhile p = l₂.dropWhile p := by
  induction l₁ with
  | nil => rfl
  | cons a t ih =>
    simp only [List.all_cons, Bool.and_eq_true] at h
    simp [List.dropWhile_cons, h.1, ih h.2]

theorem all_takeWhile_self {p : α → Bool} (l : List α) : (l.takeWhile p).all p = true := by
  induction l with
  | nil => rfl
  | cons a t ih =>
    by_cases hp : p a = true
    · simp [List.takeWhile_cons, hp, ih]
    · simp [List.takeWhile_cons, hp]

theorem all_of_dropWhile_nil {p : α → Bool} {l : List α} (h : l.dropWhile p = []) :
    l.all p = true := by
  rw [List.dropWhile_eq_nil_iff] at h
  exact List.all_eq_true.mpr h

theorem all_of_sublist {p : α → Bool} {l₁ l₂ : List α} (hs : List.Sublist l₁ l₂)
    (h : l₂.all p = true) : l₁.all p = true :=
  List.all_eq_true.mpr fun x hx => List.all_eq_true.mp h x (hs.subset hx)

theorem dropWhile_head_false {p : α → Bool} {l : List α} {a : α} {t : List α}
    (h : l.dropWhile p = a :: t) : p a = false := by
  induction l with
  | nil => simp at h
  | cons b r ih =>
    by_cases hp : p b = true
    · rw [List.dropWhile_cons, if_pos hp] at h
      exact ih h
    · rw [List.dropWhile_cons, if_neg hp] at h
      cases h
      exact Bool.not_eq_true _ ▸ Bool.of_not_eq_true hp

/-! ## Helper lemmas: splitOnceChar / splitFragment / splitQuery -/

theorem splitOnceChar_of_all {sep : Char} {u : List Char}
    (h : u.all (· != sep) = true) : splitOnceChar sep u = (u, none) := by
  unfold splitOnceChar
  have hd : u.dropWhile (· != sep) = [] := by
    rw [List.dropWhile_eq_nil_iff]
    exact List.all_eq_true.mp h
  rw [hd]

theorem splitOnceChar_append {sep : Char} {u₁ : List Char} (u₂ : List Char)
    (h : u₁.all (· != sep) = true) :
    splitOnceChar sep (u₁ ++ sep :: u₂) = (u₁, some u₂) := by
  unfold splitOnceChar
  have hd : (u₁ ++ sep :: u₂).dropWhile (· != sep) = sep :: u₂ := by
    rw [dropWhile_append_all _ h, List.dropWhile_cons]
    simp
  have ht : (u₁ ++ sep :: u₂).takeWhile (· != sep) = u₁ := by
    rw [takeWhile_append_all _ h, List.takeWhile_cons]
    simp
  rw [hd, ht]

theorem splitFragment_of_all {u : List Char} (h : u.all (· != '#') = true) :
    splitFragment u = (u, []) := by
  unfold splitFragment
  rw [splitOnceChar_of_all h]

theorem splitQuery_of_all {u : List Char} (h : u.all (· != '?') = true) :
    splitQuery u = (u, []) := by
  unfold splitQuery
  rw [splitOnceChar_of_all h]

theorem splitQuery_append {u₁ : List Char} (u₂ : List Char)
    (h : u₁.all (· != '?') = true) :
    splitQuery (u₁ ++ '?' :: u₂) = (u₁, u₂) := by
  unfold splitQuery
  rw [splitOnceChar_append u₂ h]

/-- Splitting the path part against an appended query marker: covers both the
empty-query (no marker) and nonempty-query cases at once. -/
theorem splitQuery_queryPart (u₁ q : List Char) (h : u₁.all (· != '?') = true) :
    splitQuery (u₁ ++ queryPart q) = (u₁, q) := by
  by_cases hq : q = []
  · subst hq
    rw [queryPart, if_neg (by simp)]
    rw [List.append_nil, splitQuery_of_all h]
  · rw [queryPart, if_pos hq, splitQuery_append q h]

/-! ## Helper lemmas: splitScheme -/

theorem isSchemeName_no_colon {s : List Char} (h : isSchemeName s = true) :
    s.all (· != ':') = true := by
  cases s with
  | nil => exact absurd h (by simp [isSchemeName])
  | cons c cs =>
    simp only [isSchemeName, Bool.and_eq_true] at h
    rw [List.all_cons, Bool.and_eq_true]
    constructor
    · have : c ≠ ':' := by
        intro heq
        rw [heq] at h
        exact absurd h.1 (by decide)
      simp [this]
    · exact all_imp_fun (fun a ha => by
        have : a ≠ ':' := by
          intro heq
          rw [heq] at ha
          exact absurd ha (by decide)
        simp [this]) cs h.2

theorem splitScheme_append {s : List Char} (R : List Char)
    (hs : isSchemeName s = true) (hlow : s.map asciiLower = s) :
    splitScheme (s ++ ':' :: R) = (s, R) := by
  have hno := isSchemeName_no_colon hs
  have hd : (s ++ ':' :: R).dropWhile (· != ':') = ':' :: R := by
    rw [dropWhile_append_all _ hno, List.dropWhile_cons]
    simp
  have ht : (s ++ ':' :: R).takeWhile (· != ':') = s := by
    rw [takeWhile_append_all _ hno, List.takeWhile_cons]
    simp
  simp only [splitScheme, hd, ht, hs, if_pos, hlow]

theorem urlsplitCore_scheme_append {s : List Char} (R : List Char)
    (hs : isSchemeName s = true) (hlow : s.map asciiLower = s) :
    urlsplitCore (s ++ ':' :: R) = { urlsplitRest R with scheme := s } := by
  unfold urlsplitCore
  rw [splitScheme_append R hs hlow]

/-! ## Invariants of urlsplitCore outputs -/

theorem splitOnceChar_fst_all (sep : Char) (u : List Char) :
    (splitOnceChar sep u).1.all (· != sep) = true := by
  rcases hd : u.dropWhile (· != sep) with _ | ⟨a, t⟩
  · simp only [splitOnceChar, hd]
    exact all_of_dropWhile_nil hd
  · simp only [splitOnceChar, hd]
    exact all_takeWhile_self _

theorem splitOnceChar_fst_sublist (sep : Char) (u : List Char) :
    List.Sublist (splitOnceChar sep u).1 u := by
  rcases hd : u.dropWhile (· != sep) with _ | ⟨a, t⟩
  · simp only [splitOnceChar, hd]
    exact List.Sublist.refl u
  · simp only [splitOnceChar, hd]
    exact List.takeWhile_sublist _

theorem splitFragment_fst (u : List Char) :
    (splitFragment u).1 = (splitOnceChar '#' u).1 := by
  unfold splitFragment
  rcases hs : splitOnceChar '#' u with ⟨a, _ | b⟩ <;> simp [hs]

theorem splitQuery_fst (u : List Char) :
    (splitQuery u).1 = (splitOnceChar '?' u).1 := by
  unfold splitQuery
  rcases hs : splitOnceChar '?' u with ⟨a, _ | b⟩ <;> simp [hs]

theorem splitFragment_fst_all (u : List Char) :
    (splitFragment u).1.all (· != '#') = true := by
  rw [splitFragment_fst]
  exact splitOnceChar_fst_all '#' u

theorem splitFragment_fst_sublist (u : List Char) :
    List.Sublist (splitFragment u).1 u := by
  rw [splitFragment_fst]
  exact splitOnceChar_fst_sublist '#' u

theorem splitQuery_fst_all (u : List Char) :
    (splitQuery u).1.all (· != '?') = true := by
  rw [splitQuery_fst]
  exact splitOnceChar_fst_all '?' u

theorem splitQuery_fst_sublist (u : List Char) :
    List.Sublist (splitQuery u).1 u := by
  rw [splitQuery_fst]
  exact splitOnceChar_fst_sublist '?' u

theorem splitQuery_snd_sublist (u : List Char) :
    List.Sublist (splitQuery u).2 u := by
  unfold splitQuery
  rcases hd : u.dropWhile (· != '?') with _ | ⟨a, t⟩
  · simp only [splitOnceChar, hd]
    exact List.nil_sublist u
  · simp only [splitOnceChar, hd]
    have h2 : List.Sublist (a :: t) u := by
      rw [← hd]
      exact List.dropWhile_sublist _
    exact (List.sublist_cons_self a t).trans h2

/-! ## More takeWhile / dropWhile plumbing -/

theorem takeWhile_append_stop {p : α → Bool} {l₁ : List α} (l₂ : List α)
    (h : l₁.dropWhile p ≠ []) : (l₁ ++ l₂).takeWhile p = l₁.takeWhile p := by
  induction l₁ with
  | nil => exact absurd rfl h
  | cons b r ih =>
    by_cases hp : p b = true
    · rw [List.dropWhile_cons, if_pos hp] at h
      simp [List.takeWhile_cons, hp, ih h]
    · simp [List.takeWhile_cons, hp]

theorem dropWhile_append_stop {p : α → Bool} {l₁ : List α} (l₂ : List α)
    (h : l₁.dropWhile p ≠ []) : (l₁ ++ l₂).dropWhile p = l₁.dropWhile p ++ l₂ := by
  induction l₁ with
  | nil => exact absurd rfl h
  | cons b r ih =>
    by_cases hp : p b = true
    · rw [List.dropWhile_cons, if_pos hp] at h
      simp [List.dropWhile_cons, hp, ih h]
    · simp [List.dropWhile_cons, hp]

/-- `queryPart q` starts with `?` (or is empty), so a netloc/path scan stops
in front of it. -/
theorem takeWhile_queryPart_notDelim (q : List Char) :
    (queryPart q).takeWhile notNetlocDelim = [] := by
  unfold queryPart
  by_cases hq : q = []
  · simp [hq]
  · rw [if_pos (by simpa using hq), List.takeWhile_cons]
    simp [notNetlocDelim]

theorem dropWhile_queryPart_notDelim (q : List Char) :
    (queryPart q).dropWhile notNetlocDelim = queryPart q := by
  unfold queryPart
  by_cases hq : q = []
  · simp [hq]
  · rw [if_pos (by simpa using hq), List.dropWhile_cons]
    simp [notNetlocDelim]

theorem queryPart_all_no_hash {q : List Char} (hq : q.all (· != '#') = true) :
    (queryPart q).all (· != '#') = true := by
  unfold queryPart
  by_cases h : q = []
  · simp [h]
  · rw [if_pos (by simpa using h), List.all_cons]
    simp [hq]

/-- A list that is empty or starts with `/` is consumed whole by no
netloc-delimiter scan and untouched by the drop scan. -/
theorem takeWhile_notDelim_slashHead {l : List Char}
    (h : l = [] ∨ l.take 1 = ['/']) : l.takeWhile notNetlocDelim = [] := by
  rcases h with h | h
  · simp [h]
  · cases l with
    | nil => simp at h
    | cons a t =>
      simp only [List.take_succ_cons, List.take_zero] at h
      cases h
      rw [List.takeWhile_cons]
      simp [notNetlocDelim]

theorem dropWhile_notDelim_slashHead {l : List Char}
    (h : l = [] ∨ l.take 1 = ['/']) : l.dropWhile notNetlocDelim = l := by
  rcases h with h | h
  · simp [h]
  · cases l with
    | nil => simp at h
    | cons a t =>
      simp only [List.take_succ_cons, List.take_zero] at h
      cases h
      rw [List.dropWhile_cons]
      simp [notNetlocDelim]

theorem slashPrefix_shape (p : List Char) :
    slashPrefix p = [] ∨ (slashPrefix p).take 1 = ['/'] := by
  unfold slashPrefix
  by_cases h : p ≠ [] ∧ p.take 1 ≠ ['/']
  · rw [if_pos h]
    right
    rfl
  · rw [if_neg h]
    rcases Decidable.not_and_iff_or_not.mp h with h1 | h2
    · left
      exact Decidable.of_not_not h1
    · right
      exact Decidable.of_not_not h2

theorem slashPrefix_all {l : List Char} {pr : Char → Bool}
    (hsl : pr '/' = true) (h : l.all pr = true) : (slashPrefix l).all pr = true := by
  unfold slashPrefix
  by_cases hc : l ≠ [] ∧ l.take 1 ≠ ['/']
  · rw [if_pos hc, List.all_cons, hsl, h]
    rfl
  · rw [if_neg hc]
    exact h

theorem slashPrefix_eq_self {l : List Char} (h : l = [] ∨ l.take 1 = ['/']) :
    slashPrefix l = l := by
  unfold slashPrefix
  rcases h with h | h
  · rw [if_neg]
    intro hc
    exact hc.1 h
  · rw [if_neg]
    intro hc
    exact hc.2 h

theorem slashPrefix_idem (l : List Char) : slashPrefix (slashPrefix l) = slashPrefix l :=
  slashPrefix_eq_self (slashPrefix_shape l)

theorem slashPrefix_take_two {l : List Char} (h : l.take 2 ≠ ['/', '/']) :
    (slashPrefix l).take 2 ≠ ['/', '/'] := by
  unfold slashPrefix
  by_cases hc : l ≠ [] ∧ l.take 1 ≠ ['/']
  · rw [if_pos hc]
    cases l with
    | nil => exact absurd rfl hc.1
    | cons a t =>
      have ha : a ≠ '/' := by
        intro heq
        exact hc.2 (by simp [heq])
      simp [ha]
  · rw [if_neg hc]
    exact h

/-! ## Case analysis of urlsplitRest on urlunsplit-shaped inputs -/

theorem takeWhile_slashHead_qp (p1 q : List Char) (h : p1 = [] ∨ p1.take 1 = ['/']) :
    (p1 ++ queryPart q).takeWhile notNetlocDelim = [] := by
  rcases h with h | h
  · rw [h, List.nil_append]
    exact takeWhile_queryPart_notDelim q
  · cases p1 with
    | nil => simp at h
    | cons a t =>
      simp only [List.take_succ_cons, List.take_zero] at h
      cases h
      rw [List.cons_append, List.takeWhile_cons]
      simp [notNetlocDelim]

theorem dropWhile_slashHead_qp (p1 q : List Char) (h : p1 = [] ∨ p1.take 1 = ['/']) :
    (p1 ++ queryPart q).dropWhile notNetlocDelim = p1 ++ queryPart q := by
  rcases h with h | h
  · rw [h, List.nil_append, dropWhile_queryPart_notDelim]
  · cases p1 with
    | nil => simp at h
    | cons a t =>
      simp only [List.take_succ_cons, List.take_zero] at h
      cases h
      rw [List.cons_append, List.dropWhile_cons]
      simp [notNetlocDelim]

theorem urlsplitRest_slashes (n p1 q : List Char)
    (hn : n.all notNetlocDelim = true)
    (hp1 : p1 = [] ∨ p1.take 1 = ['/'])
    (hp1h : p1.all (· != '#') = true)
    (hp1q : p1.all (· != '?') = true)
    (hq : q.all (· != '#') = true) :
    urlsplitRest ('/' :: '/' :: (n ++ (p1 ++ queryPart q))) = ⟨[], n, p1, q, []⟩ := by
  have htk : (n ++ (p1 ++ queryPart q)).takeWhile notNetlocDelim = n := by
    rw [takeWhile_append_all _ hn, takeWhile_slashHead_qp p1 q hp1, List.append_nil]
  have hdr : (n ++ (p1 ++ queryPart q)).dropWhile notNetlocDelim = p1 ++ queryPart q := by
    rw [dropWhile_append_all _ hn, dropWhile_slashHead_qp p1 q hp1]
  have hfr : splitFragment (p1 ++ queryPart q) = (p1 ++ queryPart q, []) := by
    apply splitFragment_of_all
    rw [List.all_append]
    simp [hp1h, queryPart_all_no_hash hq]
  have hpq : splitQuery (p1 ++ queryPart q) = (p1, q) := splitQuery_queryPart p1 q hp1q
  have htake : ('/' :: '/' :: (n ++ (p1 ++ queryPart q))).take 2 = ['/', '/'] := rfl
  have hdrop : ('/' :: '/' :: (n ++ (p1 ++ queryPart q))).drop 2 = n ++ (p1 ++ queryPart q) := rfl
  unfold urlsplitRest
  rw [htake, if_pos rfl, hdrop, htk, hdr]
  simp [hfr, hpq]

theorem urlsplitRest_flat (p1 q : List Char)
    (hne : (p1 ++ queryPart q).take 2 ≠ ['/', '/'])
    (hp1h : p1.all (· != '#') = true)
    (hp1q : p1.all (· != '?') = true)
    (hq : q.all (· != '#') = true) :
    urlsplitRest (p1 ++ queryPart q) = ⟨[], [], p1, q, []⟩ := by
  have hfr : splitFragment (p1 ++ queryPart q) = (p1 ++ queryPart q, []) := by
    apply splitFragment_of_all
    rw [List.all_append]
    simp [hp1h, queryPart_all_no_hash hq]
  have hpq : splitQuery (p1 ++ queryPart q) = (p1, q) := splitQuery_queryPart p1 q hp1q
  unfold urlsplitRest
  rw [if_neg hne]
  simp [hfr, hpq]

theorem takeWhile_eq_self_of_all {p : α → Bool} {l : List α} (h : l.all p = true) :
    l.takeWhile p = l := by
  induction l with
  | nil => rfl
  | cons a t ih =>
    simp only [List.all_cons, Bool.and_eq_true] at h
    rw [List.takeWhile_cons, if_pos h.1, ih h.2]

theorem urlsplitRest_doubleSlash (d q : List Char)
    (hdh : d.all (· != '#') = true)
    (hdq : d.all (· != '?') = true)
    (hq : q.all (· != '#') = true) :
    urlsplitRest ('/' :: '/' :: (d ++ queryPart q)) =
      ⟨[], d.takeWhile notNetlocDelim, d.dropWhile notNetlocDelim, q, []⟩ := by
  have htk : (d ++ queryPart q).takeWhile notNetlocDelim = d.takeWhile notNetlocDelim := by
    by_cases hd : d.dropWhile notNetlocDelim = []
    · rw [takeWhile_append_all _ (all_of_dropWhile_nil hd), takeWhile_queryPart_notDelim,
        List.append_nil, takeWhile_eq_self_of_all (all_of_dropWhile_nil hd)]
    · exact takeWhile_append_stop _ hd
  have hdr : (d ++ queryPart q).dropWhile notNetlocDelim =
      d.dropWhile notNetlocDelim ++ queryPart q := by
    by_cases hd : d.dropWhile notNetlocDelim = []
    · rw [dropWhile_append_all _ (all_of_dropWhile_nil hd), dropWhile_queryPart_notDelim, hd,
        List.nil_append]
    · exact dropWhile_append_stop _ hd
  have hsub : List.Sublist (d.dropWhile notNetlocDelim) d := List.dropWhile_sublist _
  have hfr : splitFragment (d.dropWhile notNetlocDelim ++ queryPart q) =
      (d.dropWhile notNetlocDelim ++ queryPart q, []) := by
    apply splitFragment_of_all
    rw [List.all_append]
    simp [all_of_sublist hsub hdh, queryPart_all_no_hash hq]
  have hpq : splitQuery (d.dropWhile notNetlocDelim ++ queryPart q) =
      (d.dropWhile notNetlocDelim, q) :=
    splitQuery_queryPart _ q (all_of_sublist hsub hdq)
  have htake : ('/' :: '/' :: (d ++ queryPart q)).take 2 = ['/', '/'] := rfl
  have hdrop : ('/' :: '/' :: (d ++ queryPart q)).drop 2 = d ++ queryPart q := rfl
  unfold urlsplitRest
  rw [htake, if_pos rfl, hdrop, htk, hdr]
  simp [hfr, hpq]

/-! ## Invariants of urlsplitCore outputs -/

theorem splitScheme_fst_inv (u : List Char) :
    (splitScheme u).1 = [] ∨
      (isSchemeName (splitScheme u).1 = true ∧
        (splitScheme u).1.map asciiLower = (splitScheme u).1) := by
  unfold splitScheme
  rcases hd : u.dropWhile (· != ':') with _ | ⟨a, t⟩
  · simp
  · by_cases hs : isSchemeName (u.takeWhile (· != ':')) = true
    · right
      simp only [hd, hs, if_pos]
      exact ⟨by rw [isSchemeName_map_lower]; exact hs, map_asciiLower_idem _⟩
    · left
      simp [hd, hs]

theorem isSchemeName_ne_nil {s : List Char} (h : isSchemeName s = true) : s ≠ [] := by
  cases s with
  | nil => exact absurd h (by simp [isSchemeName])
  | cons a t => simp

theorem urlsplitCore_proj (u : List Char) :
    urlsplitCore u =
      ⟨(splitScheme u).1, (urlsplitRest (splitScheme u).2).netloc,
       (urlsplitRest (splitScheme u).2).path, (urlsplitRest (splitScheme u).2).query,
       (urlsplitRest (splitScheme u).2).fragment⟩ := rfl

theorem urlsplitRest_netloc_all (v : List Char) :
    (urlsplitRest v).netloc.all notNetlocDelim = true := by
  unfold urlsplitRest
  by_cases h : v.take 2 = ['/', '/']
  · simp only [if_pos h]
    exact all_takeWhile_self _
  · simp [if_neg h]

theorem urlsplitRest_path_no_query (v : List Char) :
    (urlsplitRest v).path.all (· != '?') = true := by
  unfold urlsplitRest
  by_cases h : v.take 2 = ['/', '/'] <;> simp only [if_pos, if_neg, h] <;>
    exact splitQuery_fst_all _

theorem urlsplitRest_path_no_hash (v : List Char) :
    (urlsplitRest v).path.all (· != '#') = true := by
  unfold urlsplitRest
  by_cases h : v.take 2 = ['/', '/'] <;> simp only [if_pos, if_neg, h] <;>
    exact all_of_sublist (splitQuery_fst_sublist _) (splitFragment_fst_all _)

theorem urlsplitRest_query_no_hash (v : List Char) :
    (urlsplitRest v).query.all (· != '#') = true := by
  unfold urlsplitRest
  by_cases h : v.take 2 = ['/', '/'] <;> simp only [if_pos, if_neg, h] <;>
    exact all_of_sublist (splitQuery_snd_sublist _) (splitFragment_fst_all _)

theorem splitFragment_cons_head (a : Char) (t : List Char) (h : (a != '#') = true) :
    ∃ t', (splitFragment (a :: t)).1 = a :: t' := by
  unfold splitFragment splitOnceChar
  rcases hd : (a :: t).dropWhile (· != '#') with _ | ⟨b, r⟩
  · exact ⟨t, by simp [hd]⟩
  · exact ⟨t.takeWhile (· != '#'), by simp [hd, List.takeWhile_cons, h]⟩

theorem splitQuery_cons_head (a : Char) (t : List Char) (h : (a != '?') = true) :
    ∃ t', (splitQuery (a :: t)).1 = a :: t' := by
  unfold splitQuery splitOnceChar
  rcases hd : (a :: t).dropWhile (· != '?') with _ | ⟨b, r⟩
  · exact ⟨t, by simp [hd]⟩
  · exact ⟨t.takeWhile (· != '?'), by simp [hd, List.takeWhile_cons, h]⟩

theorem splitQuery_cons_qmark (t : List Char) : (splitQuery ('?' :: t)).1 = [] := by
  unfold splitQuery splitOnceChar
  rw [List.dropWhile_cons]
  simp [List.takeWhile_cons]

theorem splitFragment_cons_hash (t : List Char) : (splitFragment ('#' :: t)).1 = [] := by
  unfold splitFragment splitOnceChar
  rw [List.dropWhile_cons]
  simp [List.takeWhile_cons]

theorem urlsplitRest_netloc_path (v : List Char) :
    (urlsplitRest v).netloc ≠ [] →
      (urlsplitRest v).path = [] ∨ (urlsplitRest v).path.take 1 = ['/'] := by
  unfold urlsplitRest
  by_cases h : v.take 2 = ['/', '/']
  · simp only [if_pos h]
    intro _
    rcases hw : (v.drop 2).dropWhile notNetlocDelim with _ | ⟨c, t⟩
    · left
      simp [hw, splitFragment, splitQuery, splitOnceChar]
    · have hc : notNetlocDelim c = false := dropWhile_head_false hw
      have hc' : c = '/' ∨ c = '?' ∨ c = '#' := by
        simp only [notNetlocDelim, Bool.not_eq_false', Bool.or_eq_true, beq_iff_eq] at hc
        tauto
      rcases hc' with hc' | hc' | hc'
      · right
        subst hc'
        obtain ⟨t1, ht1⟩ := splitFragment_cons_head '/' t (by decide)
        obtain ⟨t2, ht2⟩ := splitQuery_cons_head '/' t1 (by decide)
        simp [hw, ht1, ht2]
      · left
        subst hc'
        obtain ⟨t1, ht1⟩ := splitFragment_cons_head '?' t (by decide)
        simp [hw, ht1, splitQuery_cons_qmark]
      · left
        subst hc'
        simp [hw, splitFragment_cons_hash, splitQuery, splitOnceChar]
  · simp [if_neg h]

/-! ## Reparsing the output of urlunsplitCore -/

theorem take_two_append_queryPart {p1 : List Char} (q : List Char)
    (h : p1.take 2 ≠ ['/', '/']) : (p1 ++ queryPart q).take 2 ≠ ['/', '/'] := by
  cases p1 with
  | nil =>
    unfold queryPart
    by_cases hq : q = []
    · simp [hq]
    · rw [if_pos (by simpa using hq), List.nil_append]
      intro heq
      have : '?' = '/' := by
        have := congrArg (fun l => l.head?) heq
        cases q <;> simpa using this
      exact absurd this (by decide)
  | cons a t =>
    cases t with
    | nil =>
      intro heq
      rcases hqp : queryPart q with _ | ⟨b, r⟩
      · rw [hqp] at heq
        simp at heq
      · have hb : b = '?' := by
          unfold queryPart at hqp
          by_cases hq : q = []
          · rw [if_neg (by simp [hq])] at hqp
            cases hqp
          · rw [if_pos (by simpa using hq)] at hqp
            cases hqp
            rfl
        rw [hqp] at heq
        simp at heq
        rw [hb] at heq
        exact absurd heq.2 (by decide)
    | cons b r =>
      intro heq
      simp at heq
      exact h (by simp [heq.1, heq.2])

theorem urlunsplitCore_shape (p : UrlParts) (hf : p.fragment = []) (hs : p.scheme ≠ []) :
    urlunsplitCore p =
      p.scheme ++ ':' ::
        ((if p.netloc ≠ [] ∨ (p.scheme ≠ [] ∧ p.scheme ∈ usesNetloc ∧ p.path.take 2 ≠ ['/', '/'])
          then '/' :: '/' :: (p.netloc ++ slashPrefix p.path) else p.path) ++ queryPart p.query) := by
  unfold urlunsplitCore
  rw [hf]
  have hfp : fragPart [] = [] := rfl
  rw [hfp, List.append_nil, if_pos hs]
  simp [List.append_assoc]

/-- Parsing the string rebuilt by `urlunsplitCore` from parse-shaped
components: the scheme, query and fragment always come back exactly; the
netloc/path pair comes back according to the netloc branch taken. -/
theorem urlsplitCore_urlunsplitCore (p : UrlParts)
    (hsch : isSchemeName p.scheme = true)
    (hlow : p.scheme.map asciiLower = p.scheme)
    (hn : p.netloc.all notNetlocDelim = true)
    (hph : p.path.all (· != '#') = true)
    (hpq : p.path.all (· != '?') = true)
    (hq : p.query.all (· != '#') = true)
    (hf : p.fragment = []) :
    urlsplitCore (urlunsplitCore p) =
      if p.netloc ≠ [] ∨ (p.scheme ≠ [] ∧ p.scheme ∈ usesNetloc ∧ p.path.take 2 ≠ ['/', '/']) then
        ⟨p.scheme, p.netloc, slashPrefix p.path, p.query, []⟩
      else if p.path.take 2 = ['/', '/'] then
        ⟨p.scheme, (p.path.drop 2).takeWhile notNetlocDelim,
         (p.path.drop 2).dropWhile notNetlocDelim, p.query, []⟩
      else ⟨p.scheme, [], p.path, p.query, []⟩ := by
  have hsne : p.scheme ≠ [] := isSchemeName_ne_nil hsch
  rw [urlunsplitCore_shape p hf hsne]
  by_cases hbc : p.netloc ≠ [] ∨ (p.scheme ≠ [] ∧ p.scheme ∈ usesNetloc ∧ p.path.take 2 ≠ ['/', '/'])
  · rw [if_pos hbc, if_pos hbc]
    have hshape : ('/' :: '/' :: (p.netloc ++ slashPrefix p.path)) ++ queryPart p.query =
        '/' :: '/' :: (p.netloc ++ (slashPrefix p.path ++ queryPart p.query)) := by
      simp [List.append_assoc]
    rw [hshape, urlsplitCore_scheme_append _ hsch hlow]
    have hrest := urlsplitRest_slashes p.netloc (slashPrefix p.path) p.query hn
      (slashPrefix_shape p.path)
      (slashPrefix_all (by decide) hph)
      (slashPrefix_all (by decide) hpq)
      hq
    rw [hrest]
  · rw [if_neg hbc, if_neg hbc]
    have hnl : p.netloc = [] := by
      by_contra hcon
      exact hbc (Or.inl hcon)
    by_cases h2 : p.path.take 2 = ['/', '/']
    · rw [if_pos h2]
      obtain ⟨r, hr⟩ : ∃ r, p.path = '/' :: '/' :: r := by
        rcases hp : p.path with _ | ⟨a, t⟩
        · rw [hp] at h2
          simp at h2
        · rcases t with _ | ⟨b, r⟩
          · rw [hp] at h2
            simp at h2
          · rw [hp] at h2
            simp only [List.take_succ_cons, List.take_zero] at h2
            simp only [List.cons.injEq, and_true] at h2
            exact ⟨r, by rw [h2.1, h2.2]⟩
      have hrh : r.all (· != '#') = true := by
        rw [hr] at hph
        simp only [List.all_cons, Bool.and_eq_true] at hph
        exact hph.2.2
      have hrq : r.all (· != '?') = true := by
        rw [hr] at hpq
        simp only [List.all_cons, Bool.and_eq_true] at hpq
        exact hpq.2.2
      rw [hr]
      have hshape : (('/' :: '/' :: r) ++ queryPart p.query) =
          '/' :: '/' :: (r ++ queryPart p.query) := rfl
      rw [hshape, urlsplitCore_scheme_append _ hsch hlow,
        urlsplitRest_doubleSlash r p.query hrh hrq hq]
      simp
    · rw [if_neg h2]
      rw [urlsplitCore_scheme_append _ hsch hlow]
      rw [urlsplitRest_flat p.path p.query (take_two_append_queryPart p.query h2) hph hpq hq]

/-! ## Normalization: component preservation and idempotence -/

theorem defaulted_scheme_name (u : String) :
    isSchemeName (if (urlsplitCore u.data).scheme = [] then "https".data
      else (urlsplitCore u.data).scheme) = true := by
  by_cases h : (urlsplitCore u.data).scheme = []
  · rw [if_pos h]
    decide
  · rw [if_neg h]
    rcases splitScheme_fst_inv u.data with h0 | h0
    · exact absurd h0 h
    · exact h0.1

theorem defaulted_scheme_lower (u : String) :
    (if (urlsplitCore u.data).scheme = [] then "https".data
      else (urlsplitCore u.data).scheme).map asciiLower =
      (if (urlsplitCore u.data).scheme = [] then "https".data
        else (urlsplitCore u.data).scheme) := by
  by_cases h : (urlsplitCore u.data).scheme = []
  · rw [if_pos h]
    decide
  · rw [if_neg h]
    rcases splitScheme_fst_inv u.data with h0 | h0
    · exact absurd h0 h
    · exact h0.2

theorem normalized_url_data (u : String) :
    (normalized_url u).data =
      urlunsplitCore ⟨if (urlsplitCore u.data).scheme = [] then "https".data
          else (urlsplitCore u.data).scheme,
        (urlsplitCore u.data).netloc, (urlsplitCore u.data).path,
        (urlsplitCore u.data).query, []⟩ := rfl

theorem normalized_url_def (u : String) :
    normalized_url u =
      ⟨urlunsplitCore ⟨if (urlsplitCore u.data).scheme = [] then "https".data
          else (urlsplitCore u.data).scheme,
        (urlsplitCore u.data).netloc, (urlsplitCore u.data).path,
        (urlsplitCore u.data).query, []⟩⟩ := rfl

/-- Reparsing a normalized URL: the effective scheme, the query, and the
(empty) fragment are reproduced exactly, whatever the branch taken by the
rebuild. -/
theorem normalized_reparse (u : String) :
    urlsplitCore (normalized_url u).data =
      (if (urlsplitCore u.data).netloc ≠ [] ∨
          ((if (urlsplitCore u.data).scheme = [] then "https".data
              else (urlsplitCore u.data).scheme) ≠ [] ∧
            (if (urlsplitCore u.data).scheme = [] then "https".data
              else (urlsplitCore u.data).scheme) ∈ usesNetloc ∧
            (urlsplitCore u.data).path.take 2 ≠ ['/', '/']) then
        ⟨if (urlsplitCore u.data).scheme = [] then "https".data
            else (urlsplitCore u.data).scheme,
          (urlsplitCore u.data).netloc, slashPrefix (urlsplitCore u.data).path,
          (urlsplitCore u.data).query, []⟩
      else if (urlsplitCore u.data).path.take 2 = ['/', '/'] then
        ⟨if (urlsplitCore u.data).scheme = [] then "https".data
            else (urlsplitCore u.data).scheme,
          ((urlsplitCore u.data).path.drop 2).takeWhile notNetlocDelim,
          ((urlsplitCore u.data).path.drop 2).dropWhile notNetlocDelim,
          (urlsplitCore u.data).query, []⟩
      else
        ⟨if (urlsplitCore u.data).scheme = [] then "https".data
            else (urlsplitCore u.data).scheme,
          [], (urlsplitCore u.data).path, (urlsplitCore u.data).query, []⟩) := by
  rw [normalized_url_data]
  exact urlsplitCore_urlunsplitCore _ (defaulted_scheme_name u) (defaulted_scheme_lower u)
    (urlsplitRest_netloc_all _) (urlsplitRest_path_no_hash _) (urlsplitRest_path_no_query _)
    (urlsplitRest_query_no_hash _) rfl

/-- Idempotence of normalization away from the degenerate
empty-netloc/`//`-path corner. -/
theorem normalized_url_idem_aux (u : String)
    (h : ¬((urlsplitCore u.data).netloc = [] ∧
        (urlsplitCore u.data).path.take 2 = ['/', '/'])) :
    normalized_url (normalized_url u) = normalized_url u := by
  have hSname := defaulted_scheme_name u
  have hSne : (if (urlsplitCore u.data).scheme = [] then "https".data
      else (urlsplitCore u.data).scheme) ≠ [] := isSchemeName_ne_nil hSname
  have hrep := normalized_reparse u
  have hdef2 : normalized_url (normalized_url u) =
      ⟨urlunsplitCore ⟨if (urlsplitCore (normalized_url u).data).scheme = [] then "https".data
          else (urlsplitCore (normalized_url u).data).scheme,
        (urlsplitCore (normalized_url u).data).netloc,
        (urlsplitCore (normalized_url u).data).path,
        (urlsplitCore (normalized_url u).data).query, []⟩⟩ := rfl
  by_cases hbc : (urlsplitCore u.data).netloc ≠ [] ∨
      ((if (urlsplitCore u.data).scheme = [] then "https".data
          else (urlsplitCore u.data).scheme) ≠ [] ∧
        (if (urlsplitCore u.data).scheme = [] then "https".data
          else (urlsplitCore u.data).scheme) ∈ usesNetloc ∧
        (urlsplitCore u.data).path.take 2 ≠ ['/', '/'])
  · rw [if_pos hbc] at hrep
    rw [hdef2, hrep]
    have hbc1 : (urlsplitCore u.data).netloc ≠ [] ∨
        ((if (urlsplitCore u.data).scheme = [] then "https".data
            else (urlsplitCore u.data).scheme) ≠ [] ∧
          (if (urlsplitCore u.data).scheme = [] then "https".data
            else (urlsplitCore u.data).scheme) ∈ usesNetloc ∧
          (slashPrefix (urlsplitCore u.data).path).take 2 ≠ ['/', '/']) := by
      rcases hbc with hn | ⟨h1, h2, h3⟩
      · exact Or.inl hn
      · exact Or.inr ⟨h1, h2, slashPrefix_take_two h3⟩
    dsimp only
    rw [if_neg hSne, normalized_url_def u]
    apply congrArg String.mk
    unfold urlunsplitCore
    dsimp only
    rw [if_pos hbc1, if_pos hbc, slashPrefix_idem]
  · rw [if_neg hbc] at hrep
    have hnl : (urlsplitCore u.data).netloc = [] := by
      by_contra hcon
      exact hbc (Or.inl hcon)
    have hne : ¬((urlsplitCore u.data).path.take 2 = ['/', '/']) := fun hcon => h ⟨hnl, hcon⟩
    rw [if_neg hne] at hrep
    rw [hdef2, hrep]
    dsimp only
    rw [if_neg hSne, normalized_url_def u]
    apply congrArg String.mk
    rw [hnl]

/-! ## Fetch engine lemmas -/

theorem looks_like_cloudflare_of_400 {r : HttpResp} (h : 400 ≤ r.status) :
    looks_like_cloudflare r = false := by
  unfold looks_like_cloudflare respOk
  rw [if_pos]
  simp only [Bool.not_eq_true', decide_eq_false_iff_not]
  omega

theorem laterStrategies_early (env : FetchEnv) (u : String) (n : Nat) (e : Bool)
    (reqs : List String) : (laterStrategies env u n e reqs).early = e := by
  unfold laterStrategies
  cases env.hx u n with
  | none => rfl
  | some r =>
    dsimp only
    by_cases hg : optTruthy (httpxValidate r) = true ∧ r.status ≠ 0 ∧ r.status < 400
    · rw [if_pos hg]
      cases httpxValidate r <;> rfl
    · rw [if_neg hg]

theorem runAttempt_early_false (env : FetchEnv) (u : String) (n : Nat) :
    (runAttempt env u n).early = false := by
  unfold runAttempt
  cases hr : env.req u n with
  | none => exact laterStrategies_early env u n false [u]
  | some r =>
    dsimp only
    by_cases hg : optTruthy (requestsValidate r) = true ∧ r.status ≠ 0 ∧ r.status < 400
    · rw [if_pos hg]
    · rw [if_neg hg]
      have hcf : ¬(r.status = 403 ∧ looks_like_cloudflare r = true) := by
        rintro ⟨h403, hcl⟩
        rw [looks_like_cloudflare_of_400 (by omega)] at hcl
        cases hcl
      rw [if_neg hcf]
      exact laterStrategies_early env u n false [u]

theorem fetchAttempts_earlyCS (env : FetchEnv) (bf : ℚ) (u : String) (l : List Nat) :
    (fetchAttempts env bf u l).earlyCS = [] := by
  induction l with
  | nil => rfl
  | cons n rest ih =>
    unfold fetchAttempts
    cases ha : (runAttempt env u n).result with
    | some t => simp [ha, runAttempt_early_false]
    | none => simp [ha, runAttempt_early_false, ih]

theorem laterStrategies_result_none (env : FetchEnv) (u : String) (n : Nat) (e : Bool)
    (reqs : List String)
    (hhx : ∀ r, env.hx u n = some r →
      optTruthy (httpxValidate r) = false ∨ ¬(r.status ≠ 0 ∧ r.status < 400))
    (hcs : ∀ r, env.cs u n = some r →
      optTruthy (csValidate r) = false ∨ ¬(r.status ≠ 0 ∧ r.status < 400)) :
    (laterStrategies env u n e reqs).result = none := by
  have hcstry : csTry env u n = none := by
    unfold csTry
    cases hc : env.cs u n with
    | none => rfl
    | some r =>
      dsimp only
      rw [if_neg]
      rcases hcs r hc with h | h
      · rintro ⟨h1, _⟩
        rw [h] at h1
        cases h1
      · rintro ⟨_, h2, h3⟩
        exact h ⟨h2, h3⟩
  unfold laterStrategies
  cases hx : env.hx u n with
  | none => simp [hcstry]
  | some r =>
    dsimp only
    have hguard : ¬(optTruthy (httpxValidate r) = true ∧ r.status ≠ 0 ∧ r.status < 400) := by
      rcases hhx r hx with h | h
      · rintro ⟨h1, _⟩
        rw [h] at h1
        cases h1
      · rintro ⟨_, h2, h3⟩
        exact h ⟨h2, h3⟩
    rw [if_neg hguard]
    simp [hcstry]

theorem runAttempt_result_none (env : FetchEnv) (u : String) (n : Nat)
    (hreq : ∀ r, env.req u n = some r →
      optTruthy (requestsValidate r) = false ∨ ¬(r.status ≠ 0 ∧ r.status < 400))
    (hhx : ∀ r, env.hx u n = some r →
      optTruthy (httpxValidate r) = false ∨ ¬(r.status ≠ 0 ∧ r.status < 400))
    (hcs : ∀ r, env.cs u n = some r →
      optTruthy (csValidate r) = false ∨ ¬(r.status ≠ 0 ∧ r.status < 400)) :
    (runAttempt env u n).result = none := by
  have hcstry : csTry env u n = none := by
    unfold csTry
    cases hc : env.cs u n with
    | none => rfl
    | some r =>
      dsimp only
      rw [if_neg]
      rcases hcs r hc with h | h
      · rintro ⟨h1, _⟩
        rw [h] at h1
        cases h1
      · rintro ⟨_, h2, h3⟩
        exact h ⟨h2, h3⟩
  unfold runAttempt
  cases hr : env.req u n with
  | none => exact laterStrategies_result_none env u n false [u] hhx hcs
  | some r =>
    dsimp only
    have hguard : ¬(optTruthy (requestsValidate r) = true ∧ r.status ≠ 0 ∧ r.status < 400) := by
      rcases hreq r hr with h | h
      · rintro ⟨h1, _⟩
        rw [h] at h1
        cases h1
      · rintro ⟨_, h2, h3⟩
        exact h ⟨h2, h3⟩
    rw [if_neg hguard]
    by_cases hcf : r.status = 403 ∧ looks_like_cloudflare r = true
    · rw [if_pos hcf, hcstry]
      exact laterStrategies_result_none env u n true [u, u] hhx hcs
    · rw [if_neg hcf]
      exact laterStrategies_result_none env u n false [u] hhx hcs

theorem fetchAttempts_all_fail (env : FetchEnv) (bf : ℚ) (u : String) (l : List Nat)
    (h : ∀ n, (runAttempt env u n).result = none) :
    (fetchAttempts env bf u l).result = none ∧
      (fetchAttempts env bf u l).sleeps.length = l.length := by
  induction l with
  | nil => exact ⟨rfl, rfl⟩
  | cons n rest ih =>
    unfold fetchAttempts
    dsimp only
    rw [h n]
    exact ⟨ih.1, by simp [ih.2]⟩

theorem fetchAttempts_sleeps_shape (env : FetchEnv) (bf : ℚ) (u : String) (l : List Nat) :
    ∀ p ∈ (fetchAttempts env bf u l).sleeps,
      p.2 = jitterQ (bf * p.1) (3/5) (env.draw p.1) := by
  induction l with
  | nil => intro p hp; cases hp
  | cons n rest ih =>
    intro p hp
    unfold fetchAttempts at hp
    dsimp only at hp
    cases ha : (runAttempt env u n).result with
    | some t =>
      rw [ha] at hp
      cases hp
    | none =>
      rw [ha] at hp
      rcases List.mem_cons.mp hp with hp | hp
      · rw [hp]
      · exact ih p hp

theorem jitterQ_bounds {base spread x : ℚ} (hb : 0 ≤ base) (hs : 0 ≤ spread)
    (hx0 : 0 ≤ x) (hx1 : x ≤ 1) :
    base - spread ≤ jitterQ base spread x ∧ jitterQ base spread x ≤ base + spread := by
  unfold jitterQ
  dsimp only
  rcases le_total (base - spread) 0 with hm | hm
  · rw [max_eq_left hm]
    constructor <;>
      nlinarith [mul_nonneg (by linarith : (0:ℚ) ≤ base + spread) hx0,
        mul_nonneg (by linarith : (0:ℚ) ≤ base + spread) (by linarith : (0:ℚ) ≤ 1 - x)]
  · rw [max_eq_right hm]
    constructor <;>
      nlinarith [mul_nonneg (by linarith : (0:ℚ) ≤ 2 * spread) hx0,
        mul_nonneg (by linarith : (0:ℚ) ≤ 2 * spread) (by linarith : (0:ℚ) ≤ 1 - x)]

theorem laterStrategies_requested (env : FetchEnv) (u : String) (n : Nat) (e : Bool)
    (reqs : List String) (h : ∀ v ∈ reqs, v = u) :
    ∀ v ∈ (laterStrategies env u n e reqs).requested, v = u := by
  unfold laterStrategies
  cases env.hx u n with
  | none =>
    dsimp only
    intro v hv
    rcases List.mem_append.mp hv with hv | hv
    · exact h v hv
    · simpa using hv
  | some r =>
    dsimp only
    by_cases hg : optTruthy (httpxValidate r) = true ∧ r.status ≠ 0 ∧ r.status < 400
    · rw [if_pos hg]
      cases httpxValidate r with
      | none =>
        dsimp only
        intro v hv
        rcases List.mem_append.mp hv with hv | hv
        · exact h v hv
        · simpa using hv
      | some t =>
        dsimp only
        intro v hv
        rcases List.mem_append.mp hv with hv | hv
        · exact h v hv
        · simpa using hv
    · rw [if_neg hg]
      dsimp only
      intro v hv
      rcases List.mem_append.mp hv with hv | hv
      · exact h v hv
      · simpa using hv

theorem runAttempt_requested (env : FetchEnv) (u : String) (n : Nat) :
    ∀ v ∈ (runAttempt env u n).requested, v = u := by
  unfold runAttempt
  cases hr : env.req u n with
  | none =>
    exact laterStrategies_requested env u n false [u] (by intro v hv; simpa using hv)
  | some r =>
    dsimp only
    by_cases hg : optTruthy (requestsValidate r) = true ∧ r.status ≠ 0 ∧ r.status < 400
    · rw [if_pos hg]
      intro v hv
      simpa using hv
    · rw [if_neg hg]
      by_cases hcf : r.status = 403 ∧ looks_like_cloudflare r = true
      · rw [if_pos hcf]
        cases csTry env u n with
        | some t =>
          dsimp only
          intro v hv
          simpa using hv
        | none =>
          exact laterStrategies_requested env u n true [u, u]
            (by intro v hv; simpa using hv)
      · rw [if_neg hcf]
        exact laterStrategies_requested env u n false [u] (by intro v hv; simpa using hv)

theorem fetchAttempts_requested (env : FetchEnv) (bf : ℚ) (u : String) (l : List Nat) :
    ∀ v ∈ (fetchAttempts env bf u l).requested, v = u := by
  induction l with
  | nil => intro v hv; cases hv
  | cons n rest ih =>
    unfold fetchAttempts
    dsimp only
    cases ha : (runAttempt env u n).result with
    | some t =>
      intro v hv
      exact runAttempt_requested env u n v hv
    | none =>
      intro v hv
      rcases List.mem_append.mp hv with hv | hv
      · exact runAttempt_requested env u n v hv
      · exact ih v hv

/-! ## Extraction chain lemmas -/

theorem runTrafilatura_some {lib : String → String → Bool → Option TrafData}
    {url html : String} {fp : Bool} {c : Candidate}
    (h : runTrafilatura lib url html fp = some c) :
    c.content ≠ "" ∧ 100 < c.content.length ∧ c.keywords = [] ∧ c.method = "trafilatura" := by
  unfold runTrafilatura at h
  cases hl : lib html url fp with
  | none =>
    rw [hl] at h
    cases h
  | some data =>
    rw [hl] at h
    dsimp only at h
    by_cases hc : pyStrip (data.text.getD "") ≠ "" ∧ 100 < (pyStrip (data.text.getD "")).length
    · rw [if_pos hc] at h
      injection h with h
      subst h
      exact ⟨hc.1, hc.2, rfl, rfl⟩
    · rw [if_neg hc] at h
      cases h

theorem extract_with_trafilatura_some {libs : Libs} {url html : String} {c : Candidate}
    (h : extract_with_trafilatura libs url html = some c) :
    c.content ≠ "" ∧ 100 < c.content.length ∧ c.keywords = [] ∧ c.method = "trafilatura" := by
  unfold extract_with_trafilatura at h
  cases hl : libs.trafilatura with
  | none =>
    rw [hl] at h
    cases h
  | some lib =>
    rw [hl] at h
    dsimp only at h
    cases h1 : runTrafilatura lib url html true with
    | some r =>
      rw [h1] at h
      injection h with h
      subst h
      exact runTrafilatura_some h1
    | none =>
      rw [h1] at h
      exact runTrafilatura_some h

theorem extract_with_newspaper_some {libs : Libs} {url html : String} {c : Candidate}
    (h : extract_with_newspaper libs url html = some c) :
    c.content ≠ "" ∧ 100 < c.content.length ∧ c.keywords.length ≤ 10 ∧
      c.method = "newspaper3k" := by
  unfold extract_with_newspaper at h
  cases hl : libs.newspaper with
  | none =>
    rw [hl] at h
    cases h
  | some lib =>
    rw [hl] at h
    dsimp only at h
    cases ha : lib url html with
    | none =>
      rw [ha] at h
      cases h
    | some a =>
      rw [ha] at h
      dsimp only at h
      by_cases hc : pyStrip (a.text.getD "") ≠ "" ∧ 100 < (pyStrip (a.text.getD "")).length
      · rw [if_pos hc] at h
        injection h with h
        subst h
        refine ⟨hc.1, hc.2, ?_, rfl⟩
        dsimp only
        by_cases hk : a.keywords ≠ []
        · rw [if_pos hk, List.length_take]
          exact min_le_left _ _
        · rw [if_neg hk]
          simp
      · rw [if_neg hc] at h
        cases h

theorem extract_with_readability_some {libs : Libs} {html : String} {c : Candidate}
    (h : extract_with_readability libs html = some c) :
    c.content ≠ "" ∧ 100 < c.content.length ∧ c.keywords = [] ∧
      c.method = "readability" := by
  unfold extract_with_readability at h
  cases hl : libs.readability with
  | none =>
    rw [hl] at h
    cases h
  | some lib =>
    rw [hl] at h
    dsimp only at h
    cases hd : lib html with
    | none =>
      rw [hd] at h
      cases h
    | some d =>
      rw [hd] at h
      dsimp only at h
      by_cases hc : d.text ≠ "" ∧ 100 < d.text.length
      · rw [if_pos hc] at h
        injection h with h
        subst h
        exact ⟨hc.1, hc.2, rfl, rfl⟩
      · rw [if_neg hc] at h
        cases h

theorem extract_with_beautifulsoup_some {libs : Libs} {html : String} {c : Candidate}
    (h : extract_with_beautifulsoup libs html = some c) :
    c.content ≠ "" ∧ 100 < c.content.length ∧ c.keywords = [] ∧
      c.method = "beautifulsoup" := by
  unfold extract_with_beautifulsoup at h
  cases hl : libs.bs4 with
  | none =>
    rw [hl] at h
    cases h
  | some lib =>
    rw [hl] at h
    dsimp only at h
    cases hd : lib html with
    | none =>
      rw [hd] at h
      cases h
    | some d =>
      rw [hd] at h
      dsimp only at h
      by_cases hc : normalizeLines d.content ≠ "" ∧ 100 < (normalizeLines d.content).length
      · rw [if_pos hc] at h
        injection h with h
        subst h
        exact ⟨hc.1, hc.2, rfl, rfl⟩
      · rw [if_neg hc] at h
        cases h

theorem runTrafilatura_none {lib : String → String → Bool → Option TrafData}
    {url html : String} {fp : Bool}
    (h : ∀ d, lib html url fp = some d → (pyStrip (d.text.getD "")).length ≤ 100) :
    runTrafilatura lib url html fp = none := by
  unfold runTrafilatura
  cases hl : lib html url fp with
  | none => rfl
  | some data =>
    dsimp only
    rw [if_neg]
    rintro ⟨_, hlen⟩
    have := h data hl
    omega

theorem extract_with_trafilatura_none {libs : Libs} {url html : String}
    (h : ∀ lib, libs.trafilatura = some lib →
      ∀ fp d, lib html url fp = some d → (pyStrip (d.text.getD "")).length ≤ 100) :
    extract_with_trafilatura libs url html = none := by
  unfold extract_with_trafilatura
  cases hl : libs.trafilatura with
  | none => rfl
  | some lib =>
    dsimp only
    rw [runTrafilatura_none (h lib hl true), runTrafilatura_none (h lib hl false)]

theorem extract_with_newspaper_none {libs : Libs} {url html : String}
    (h : ∀ lib, libs.newspaper = some lib →
      ∀ a, lib url html = some a → (pyStrip (a.text.getD "")).length ≤ 100) :
    extract_with_newspaper libs url html = none := by
  unfold extract_with_newspaper
  cases hl : libs.newspaper with
  | none => rfl
  | some lib =>
    dsimp only
    cases ha : lib url html with
    | none => rfl
    | some a =>
      dsimp only
      rw [if_neg]
      rintro ⟨_, hlen⟩
      have := h lib hl a ha
      omega

theorem extract_with_readability_none {libs : Libs} {html : String}
    (h : ∀ lib, libs.readability = some lib →
      ∀ d, lib html = some d → d.text.length ≤ 100) :
    extract_with_readability libs html = none := by
  unfold extract_with_readability
  cases hl : libs.readability with
  | none => rfl
  | some lib =>
    dsimp only
    cases hd : lib html with
    | none => rfl
    | some d =>
      dsimp only
      rw [if_neg]
      rintro ⟨_, hlen⟩
      have := h lib hl d hd
      omega

theorem extract_with_beautifulsoup_none {libs : Libs} {html : String}
    (h : ∀ lib, libs.bs4 = some lib →
      ∀ d, lib html = some d → (normalizeLines d.content).length ≤ 100) :
    extract_with_beautifulsoup libs html = none := by
  unfold extract_with_beautifulsoup
  cases hl : libs.bs4 with
  | none => rfl
  | some lib =>
    dsimp only
    cases hd : lib html with
    | none => rfl
    | some d =>
      dsimp only
      rw [if_neg]
      rintro ⟨_, hlen⟩
      have := h lib hl d hd
      omega

theorem runChain_result_mem {l : List (String × Option Candidate)} {c : Candidate}
    (h : (runChain l).result = some c) : ∃ nm, (nm, some c) ∈ l := by
  induction l with
  | nil => cases h
  | cons e rest ih =>
    rcases e with ⟨nm, r⟩
    cases r with
    | some c0 =>
      unfold runChain at h
      dsimp only at h
      by_cases hc : c0.content ≠ ""
      · rw [if_pos hc] at h
        dsimp only at h
        injection h with h
        subst h
        exact ⟨nm, List.mem_cons_self _ _⟩
      · rw [if_neg hc] at h
        dsimp only at h
        obtain ⟨nm2, hm⟩ := ih h
        exact ⟨nm2, List.mem_cons_of_mem _ hm⟩
    | none =>
      unfold runChain at h
      obtain ⟨nm2, hm⟩ := ih h
      exact ⟨nm2, List.mem_cons_of_mem _ hm⟩

theorem runChain_cons_some {nm : String} {c : Candidate}
    (rest : List (String × Option Candidate)) (hc : c.content ≠ "") :
    runChain ((nm, some c) :: rest) = ⟨some c, [nm]⟩ := by
  unfold runChain
  dsimp only
  rw [if_pos hc]

theorem runChain_cons_none (nm : String) (rest : List (String × Option Candidate)) :
    runChain ((nm, none) :: rest) =
      ⟨(runChain rest).result, nm :: (runChain rest).attempted⟩ := rfl

/-! ## Keyword extraction lemma -/

theorem extract_keywords_length_le (text : String) (mk : Nat) :
    (extract_keywords text mk).length ≤ mk := by
  unfold extract_keywords
  dsimp only
  rw [List.length_map, List.length_take]
  exact min_le_left _ _

/-! ## RSS conditional-request lemmas -/

theorem lookup_cons_ite (a k v : String) (rest : List (String × String)) :
    List.lookup a ((k, v) :: rest) = if a == k then some v else List.lookup a rest := by
  rw [List.lookup_cons]
  cases h : a == k <;> simp [h]

theorem lookup_append_single_of_none {a : String} {l : LMState} {x : String × String}
    (h : List.lookup a l = none) : List.lookup a (l ++ [x]) = List.lookup a [x] := by
  induction l with
  | nil => rfl
  | cons p rest ih =>
    rcases p with ⟨k, v⟩
    rw [lookup_cons_ite] at h
    by_cases hk : (a == k) = true
    · rw [if_pos hk] at h
      cases h
    · rw [if_neg hk] at h
      rw [List.cons_append, lookup_cons_ite, if_neg hk]
      exact ih h

theorem lookup_self_single (a lm : String) : List.lookup a [(a, lm)] = some lm := by
  rw [lookup_cons_ite]
  simp

theorem lookup_map_update {a lm : String} : ∀ {l : LMState} {v0 : String},
    List.lookup a l = some v0 →
      List.lookup a (l.map (fun p => if p.1 = a then (a, lm) else p)) = some lm := by
  intro l
  induction l with
  | nil =>
    intro v0 h
    cases h
  | cons p rest ih =>
    intro v0 h
    rcases p with ⟨k, v⟩
    rw [lookup_cons_ite] at h
    by_cases hk : (a == k) = true
    · have hak : a = k := eq_of_beq hk
      rw [List.map_cons]
      have hhd : (if ((k, v) : String × String).1 = a then (a, lm) else (k, v)) = (a, lm) := by
        rw [if_pos]
        exact hak.symm
      rw [hhd, lookup_cons_ite, if_pos (by simp)]
    · rw [if_neg hk] at h
      have hka : ¬(((k, v) : String × String).1 = a) := by
        intro heq
        exact hk (beq_iff_eq.mpr heq.symm)
      rw [List.map_cons, if_neg hka, lookup_cons_ite, if_neg hk]
      exact ih h

theorem lookup_setLastModified (st : LMState) (url lm : String) :
    List.lookup url (setLastModified st url lm) = some lm := by
  unfold setLastModified
  cases hl : st.lookup url with
  | none => rw [lookup_append_single_of_none hl, lookup_self_single]
  | some v => exact lookup_map_update hl

theorem getLastModified_setLastModified (st : LMState) (url lm : String) :
    getLastModified (setLastModified st url lm) url = lm := by
  unfold getLastModified
  rw [lookup_setLastModified]

/-! ## Claim theorems -/

/-- C1: the extraction chain returns a candidate only if its `content` is
non-empty and longer than 100 characters, whichever of the four methods
produced it; and when every method's extracted text is at most 100
characters, `extract`'s chain returns no candidate. -/
theorem C1_extraction_acceptance_floor (libs : Libs) (url html : String) :
    (∀ c, (extractChain libs url html).result = some c →
        c.content ≠ "" ∧ 100 < c.content.length)
    ∧ ((∀ lib, libs.trafilatura = some lib →
          ∀ fp d, lib html url fp = some d → (pyStrip (d.text.getD "")).length ≤ 100) →
       (∀ lib, libs.newspaper = some lib →
          ∀ a, lib url html = some a → (pyStrip (a.text.getD "")).length ≤ 100) →
       (∀ lib, libs.readability = some lib →
          ∀ d, lib html = some d → d.text.length ≤ 100) →
       (∀ lib, libs.bs4 = some lib →
          ∀ d, lib html = some d → (normalizeLines d.content).length ≤ 100) →
       (extractChain libs url html).result = none) := by
  constructor
  · intro c h
    obtain ⟨nm, hm⟩ := runChain_result_mem h
    unfold extractMethods at hm
    simp only [List.mem_cons, List.not_mem_nil, or_false, Prod.mk.injEq] at hm
    rcases hm with ⟨_, hc⟩ | ⟨_, hc⟩ | ⟨_, hc⟩ | ⟨_, hc⟩
    · have := extract_with_trafilatura_some hc.symm
      exact ⟨this.1, this.2.1⟩
    · have := extract_with_newspaper_some hc.symm
      exact ⟨this.1, this.2.1⟩
    · have := extract_with_readability_some hc.symm
      exact ⟨this.1, this.2.1⟩
    · have := extract_with_beautifulsoup_some hc.symm
      exact ⟨this.1, this.2.1⟩
  · intro h1 h2 h3 h4
    unfold extractChain extractMethods
    rw [extract_with_trafilatura_none h1, extract_with_newspaper_none h2,
      extract_with_readability_none h3, extract_with_beautifulsoup_none h4]
    rfl

set_option maxRecDepth 8000 in
theorem C1_witness :
    ((candLong.content ≠ "" ∧ 100 < candLong.content.length) ∧
      (extractChain libsShort "https://example.com/a" "<html>tiny</html>").result = none) :=
  ⟨(C1_extraction_acceptance_floor libsTrafLong "https://example.com/a" "<html>x</html>").1
      candLong (by decide),
   (C1_extraction_acceptance_floor libsShort "https://example.com/a" "<html>tiny</html>").2
      (fun lib hl => by
        cases hl
        intro fp d hd
        cases hd
        decide)
      (fun lib hl => by
        cases hl
        intro a ha
        cases ha
        decide)
      (fun lib hl => by
        cases hl
        intro d hd
        cases hd
        decide)
      (fun lib hl => by
        cases hl
        intro d hd
        cases hd
        decide)⟩

/-- C2: the chain runs the four methods in the fixed precision-descending
order and short-circuits on the first acceptable candidate: if trafilatura
yields a candidate it is returned with no later method invoked, and in
general the attempted-method trace stops at the first success. -/
theorem C2_chain_short_circuit (libs : Libs) (url html : String) :
    (∀ c, extract_with_trafilatura libs url html = some c →
        extractChain libs url html = ⟨some c, ["trafilatura"]⟩)
    ∧ (∀ c, extract_with_trafilatura libs url html = none →
        extract_with_newspaper libs url html = some c →
        extractChain libs url html = ⟨some c, ["trafilatura", "newspaper3k"]⟩)
    ∧ (∀ c, extract_with_trafilatura libs url html = none →
        extract_with_newspaper libs url html = none →
        extract_with_readability libs html = some c →
        extractChain libs url html =
          ⟨some c, ["trafilatura", "newspaper3k", "readability"]⟩)
    ∧ (∀ c, extract_with_trafilatura libs url html = none →
        extract_with_newspaper libs url html = none →
        extract_with_readability libs html = none →
        extract_with_beautifulsoup libs html = some c →
        extractChain libs url html =
          ⟨some c, ["trafilatura", "newspaper3k", "readability", "beautifulsoup"]⟩) := by
  refine ⟨?_, ?_, ?_, ?_⟩
  · intro c h
    unfold extractChain extractMethods
    rw [h]
    exact runChain_cons_some _ (extract_with_trafilatura_some h).1
  · intro c h1 h2
    unfold extractChain extractMethods
    rw [h1, h2, runChain_cons_none, runChain_cons_some _ (extract_with_newspaper_some h2).1]
  · intro c h1 h2 h3
    unfold extractChain extractMethods
    rw [h1, h2, h3, runChain_cons_none, runChain_cons_none,
      runChain_cons_some _ (extract_with_readability_some h3).1]
  · intro c h1 h2 h3 h4
    unfold extractChain extractMethods
    rw [h1, h2, h3, h4, runChain_cons_none, runChain_cons_none, runChain_cons_none,
      runChain_cons_some _ (extract_with_beautifulsoup_some h4).1]

set_option maxRecDepth 8000 in
theorem C2_witness :
    (extractChain libsTrafLong "https://example.com/a" "<html>x</html>" =
        ⟨some candLong, ["trafilatura"]⟩)
    ∧ (extractChain libsNewsLong "https://example.com/a" "<html>x</html>" =
        ⟨some candNews, ["trafilatura", "newspaper3k"]⟩)
    ∧ (extractChain libsReadLong "https://example.com/a" "<html>x</html>" =
        ⟨some candRead, ["trafilatura", "newspaper3k", "readability"]⟩)
    ∧ (extractChain libsBsLong "https://example.com/a" "<html>x</html>" =
        ⟨some candBs, ["trafilatura", "newspaper3k", "readability", "beautifulsoup"]⟩) := by
  refine ⟨?_, ?_, ?_, ?_⟩
  · exact (C2_chain_short_circuit libsTrafLong "https://example.com/a" "<html>x</html>").1
      candLong (by decide)
  · exact (C2_chain_short_circuit libsNewsLong "https://example.com/a" "<html>x</html>").2.1
      candNews (by decide) (by decide)
  · exact (C2_chain_short_circuit libsReadLong "https://example.com/a" "<html>x</html>").2.2.1
      candRead (by decide) (by decide) (by decide)
  · exact (C2_chain_short_circuit libsBsLong "https://example.com/a" "<html>x</html>").2.2.2
      candBs (by decide) (by decide) (by decide) (by decide)

/-- C9: every candidate the chain returns carries at most 10 keywords — the
newspaper3k method truncates to the first 10 and the other three methods
always attach an empty list — and the standalone keyword extractor returns
at most `maxKeywords` keywords for every input text. -/
theorem C9_keywords_bounded (libs : Libs) (url html : String) :
    (∀ c, (extractChain libs url html).result = some c → c.keywords.length ≤ 10)
    ∧ (∀ c, extract_with_trafilatura libs url html = some c → c.keywords = [])
    ∧ (∀ c, extract_with_newspaper libs url html = some c → c.keywords.length ≤ 10)
    ∧ (∀ c, extract_with_readability libs html = some c → c.keywords = [])
    ∧ (∀ c, extract_with_beautifulsoup libs html = some c → c.keywords = [])
    ∧ (∀ (text : String) (mk : Nat), (extract_keywords text mk).length ≤ mk) := by
  refine ⟨?_, ?_, ?_, ?_, ?_, ?_⟩
  · intro c h
    obtain ⟨nm, hm⟩ := runChain_result_mem h
    unfold extractMethods at hm
    simp only [List.mem_cons, List.not_mem_nil, or_false, Prod.mk.injEq] at hm
    rcases hm with ⟨_, hc⟩ | ⟨_, hc⟩ | ⟨_, hc⟩ | ⟨_, hc⟩
    · rw [(extract_with_trafilatura_some hc.symm).2.2.1]
      simp
    · exact (extract_with_newspaper_some hc.symm).2.2.1
    · rw [(extract_with_readability_some hc.symm).2.2.1]
      simp
    · rw [(extract_with_beautifulsoup_some hc.symm).2.2.1]
      simp
  · exact fun c h => (extract_with_trafilatura_some h).2.2.1
  · exact fun c h => (extract_with_newspaper_some h).2.2.1
  · exact fun c h => (extract_with_readability_some h).2.2.1
  · exact fun c h => (extract_with_beautifulsoup_some h).2.2.1
  · exact extract_keywords_length_le

set_option maxRecDepth 8000 in
theorem C9_witness :
    candLong.keywords.length ≤ 10 ∧ candLong.keywords = [] ∧
      candNews.keywords.length ≤ 10 := by
  refine ⟨?_, ?_, ?_⟩
  · exact (C9_keywords_bounded libsTrafLong "https://example.com/a" "<html>x</html>").1
      candLong (by decide)
  · exact (C9_keywords_bounded libsTrafLong "https://example.com/a" "<html>x</html>").2.1
      candLong (by decide)
  · exact (C9_keywords_bounded libsNewsLong "https://example.com/a" "<html>x</html>").2.2.1
      candNews (by decide)


/-- C3: a response whose content-type is not HTML-like and whose first 2KB
of body carry no `<html` marker is rejected by the body validation of every
transport strategy, even on HTTP 200; an environment delivering only such
responses makes the whole fetch produce no html. -/
theorem C3_nonhtml_rejected :
    (∀ r : HttpResp, nonHtmlResponse r = true →
        requestsValidate r = none ∧ httpxValidate r = none ∧ csValidate r = none)
    ∧ ∀ (env : FetchEnv) (bf : ℚ) (mr : Nat) (url : String),
        (∀ u n r, env.req u n = some r → nonHtmlResponse r = true) →
        (∀ u n r, env.hx u n = some r → nonHtmlResponse r = true) →
        (∀ u n r, env.cs u n = some r → nonHtmlResponse r = true) →
        (fetch_html env bf mr url).result = none := by
  have hv : ∀ r : HttpResp, nonHtmlResponse r = true →
      requestsValidate r = none ∧ httpxValidate r = none ∧ csValidate r = none := by
    intro r h
    simp [requestsValidate, httpxValidate, csValidate, h]
  refine ⟨hv, ?_⟩
  intro env bf mr url hreq hhx hcs
  have hall : ∀ n, (runAttempt env (normalized_url url) n).result = none := by
    intro n
    refine runAttempt_result_none env (normalized_url url) n ?_ ?_ ?_
    · intro r hr
      left
      rw [(hv r (hreq _ n r hr)).1]
      rfl
    · intro r hr
      left
      rw [(hv r (hhx _ n r hr)).2.1]
      rfl
    · intro r hr
      left
      rw [(hv r (hcs _ n r hr)).2.2]
      rfl
  exact (fetchAttempts_all_fail env bf (normalized_url url) (List.range' 1 mr) hall).1

set_option maxRecDepth 8000 in
theorem C3_witness :
    nonHtmlResponse jsonResp = true
    ∧ (requestsValidate jsonResp = none ∧ httpxValidate jsonResp = none ∧
        csValidate jsonResp = none)
    ∧ (fetch_html envJson 1 2 "http://example.com").result = none :=
  ⟨by decide,
   C3_nonhtml_rejected.1 jsonResp (by decide),
   C3_nonhtml_rejected.2 envJson 1 2 "http://example.com"
     (fun u n r h => by
       have h2 : some jsonResp = some r := h
       cases h2
       decide)
     (fun u n r h => by
       have h2 : some jsonResp = some r := h
       cases h2
       decide)
     (fun u n r h => by
       have h2 : some jsonResp = some r := h
       cases h2
       decide)⟩

/-- C4: when every transport either raises (is caught) or returns a
response failing the acceptance guard — timeouts, transport errors, HTTP
error statuses — `fetch_html` returns `none` rather than propagating, and
it performs exactly `max_retries` attempts, sleeping after each. -/
theorem C4_fetch_exhausts_retries (env : FetchEnv) (bf : ℚ) (mr : Nat) (url : String)
    (hreq : ∀ u n r, env.req u n = some r →
        optTruthy (requestsValidate r) = false ∨ ¬(r.status ≠ 0 ∧ r.status < 400))
    (hhx : ∀ u n r, env.hx u n = some r →
        optTruthy (httpxValidate r) = false ∨ ¬(r.status ≠ 0 ∧ r.status < 400))
    (hcs : ∀ u n r, env.cs u n = some r →
        optTruthy (csValidate r) = false ∨ ¬(r.status ≠ 0 ∧ r.status < 400)) :
    (fetch_html env bf mr url).result = none ∧
      (fetch_html env bf mr url).sleeps.length = mr := by
  have hall : ∀ n, (runAttempt env (normalized_url url) n).result = none := fun n =>
    runAttempt_result_none env (normalized_url url) n (hreq _ n) (hhx _ n) (hcs _ n)
  have h := fetchAttempts_all_fail env bf (normalized_url url) (List.range' 1 mr) hall
  refine ⟨h.1, ?_⟩
  show (fetchAttempts env bf (normalized_url url) (List.range' 1 mr)).sleeps.length = mr
  rw [h.2]
  simp

theorem C4_witness :
    (fetch_html envFail 1 3 "http://example.com").result = none ∧
      (fetch_html envFail 1 3 "http://example.com").sleeps.length = 3 :=
  C4_fetch_exhausts_retries envFail 1 3 "http://example.com"
    (fun u n r h => nomatch h) (fun u n r h => nomatch h) (fun u n r h => nomatch h)

/-- C5: every backoff sleep recorded by `fetch_html` — the one after failed
attempt `n` — lies in the closed interval
`[backoff_factor * n - 0.6, backoff_factor * n + 0.6]`, for every value of
the underlying unit-interval uniform draw. -/
theorem C5_backoff_within_interval (env : FetchEnv) (bf : ℚ) (mr : Nat) (url : String)
    (hbf : 0 ≤ bf) (hdraw : ∀ n, 0 ≤ env.draw n ∧ env.draw n ≤ 1) :
    ∀ p ∈ (fetch_html env bf mr url).sleeps,
      bf * p.1 - 3/5 ≤ p.2 ∧ p.2 ≤ bf * p.1 + 3/5 := by
  intro p hp
  have hs := fetchAttempts_sleeps_shape env bf (normalized_url url) (List.range' 1 mr) p hp
  rw [hs]
  exact jitterQ_bounds (mul_nonneg hbf (Nat.cast_nonneg p.1)) (by norm_num)
    (hdraw p.1).1 (hdraw p.1).2

theorem C5_witness :
    (0:ℚ) ≤ 1
    ∧ ∀ p ∈ (fetch_html envFail 1 1 "http://example.com").sleeps,
        1 * p.1 - 3/5 ≤ p.2 ∧ p.2 ≤ 1 * p.1 + 3/5 :=
  ⟨by norm_num,
   C5_backoff_within_interval envFail 1 1 "http://example.com" (by norm_num)
     (fun n => ⟨by norm_num [envFail], by norm_num [envFail]⟩)⟩

/-- C6: contrary to the spec, the early cloudscraper escalation can never
fire.  `looks_like_cloudflare` is false on every response with status
≥ 400 — in particular on every 403 interstitial, including a genuine
Cloudflare challenge page — because its `if not resp` guard tests
`requests.Response.__bool__`, which is `status_code < 400`, not `is None`;
hence the `status == 403 and looks_like_cloudflare(resp)` branch of
`fetch_html` is dead code and no call ever records an early escalation. -/
theorem C6_escalation_never_fires :
    looks_like_cloudflare cloudflare403 = false
    ∧ (∀ r : HttpResp, 400 ≤ r.status → looks_like_cloudflare r = false)
    ∧ ∀ (env : FetchEnv) (bf : ℚ) (mr : Nat) (url : String),
        (fetch_html env bf mr url).earlyCS = [] :=
  ⟨by decide, fun r h => looks_like_cloudflare_of_400 h,
   fun env bf mr url => fetchAttempts_earlyCS env bf (normalized_url url) (List.range' 1 mr)⟩

theorem C6_witness :
    400 ≤ cloudflare403.status
    ∧ looks_like_cloudflare cloudflare403 = false
    ∧ (fetch_html envFail 1 1 "http://example.com").earlyCS = [] :=
  ⟨by decide, C6_escalation_never_fires.2.1 cloudflare403 (by decide),
   C6_escalation_never_fires.2.2 envFail 1 1 "http://example.com"⟩

/-- C7: every URL handed to a transport by `fetch_html` is the normalized
form of the input — computed before any request — and the normalized form
has the scheme defaulted to `https` when absent, the query preserved
unchanged, and the fragment stripped. -/
theorem C7_url_normalized_first (env : FetchEnv) (bf : ℚ) (mr : Nat) (url : String) :
    (∀ v ∈ (fetch_html env bf mr url).requested, v = normalized_url url)
    ∧ (urlsplitCore (normalized_url url).data).scheme =
        (if (urlsplitCore url.data).scheme = [] then "https".data
          else (urlsplitCore url.data).scheme)
    ∧ (urlsplitCore (normalized_url url).data).query = (urlsplitCore url.data).query
    ∧ (urlsplitCore (normalized_url url).data).fragment = [] := by
  refine ⟨fetchAttempts_requested env bf (normalized_url url) (List.range' 1 mr), ?_⟩
  rw [normalized_reparse url]
  split_ifs <;> exact ⟨rfl, rfl, rfl⟩

/-- C8 counterexample: the original claim says the conditional-request
cache is updated whenever a fetched response carries `Last-Modified`, but
`fetch_feed` returns before the update on any non-200 status — a 404
response carrying the header leaves the cache empty. -/
theorem C8_counterexample :
    lmResp404.lastModified = some "Tue, 01 Jan 2024 00:00:00 GMT"
    ∧ (fetch_feed [] "http://feed" (some lmResp404)).state = [] := by
  decide

/-- C8 (amended): the conditional-request cache lives only in the RSS
fetcher, and is updated only on an HTTP 200 response with an XML/RSS
content type whose `Last-Modified` header is non-empty; given such a
response, the cache holds the header value for the URL, a subsequent fetch
of the same URL sends it as `If-Modified-Since`, and a 304 reply yields the
not-modified outcome with the state unchanged rather than a failure. -/
theorem C8_conditional_cache {α : Type} (st : LMState) (url lm : String) (r : FeedResp α)
    (h200 : r.status = 200)
    (hct : pyContains (lowerStr r.contentType) "xml" = true ∨
        pyContains (lowerStr r.contentType) "rss" = true)
    (hlm : r.lastModified = some lm) (hne : lm ≠ "") :
    (fetch_feed st url (some r)).state = setLastModified st url lm
    ∧ getLastModified (fetch_feed st url (some r)).state url = lm
    ∧ ∀ r2 : FeedResp α, r2.status = 304 →
        (fetch_feed (fetch_feed st url (some r)).state url (some r2)).ifModifiedSinceSent
            = some lm
        ∧ (fetch_feed (fetch_feed st url (some r)).state url (some r2)).outcome
            = FeedOutcome.notModified
        ∧ (fetch_feed (fetch_feed st url (some r)).state url (some r2)).entries = []
        ∧ (fetch_feed (fetch_feed st url (some r)).state url (some r2)).state
            = (fetch_feed st url (some r)).state := by
  have hstate : (fetch_feed st url (some r)).state = setLastModified st url lm := by
    unfold fetch_feed
    dsimp only
    rw [if_neg (show ¬ r.status = 304 by rw [h200]; decide),
      if_neg (not_not_intro h200),
      if_neg (show ¬(¬(pyContains (lowerStr r.contentType) "xml" = true) ∧
          ¬(pyContains (lowerStr r.contentType) "rss" = true)) by
        rintro ⟨hx, hr⟩
        rcases hct with h | h
        exacts [hx h, hr h])]
    rw [hlm]
    dsimp only [Option.getD]
    rw [if_pos hne]
    cases hE : r.parsedEntries.isEmpty <;> simp [hE]
  have hget : getLastModified (fetch_feed st url (some r)).state url = lm := by
    rw [hstate]
    exact getLastModified_setLastModified st url lm
  refine ⟨hstate, hget, ?_⟩
  intro r2 h304
  rw [hstate]
  unfold fetch_feed
  dsimp only
  rw [if_pos h304]
  dsimp only
  rw [getLastModified_setLastModified st url lm, if_pos hne]
  exact ⟨rfl, rfl, rfl, rfl⟩

theorem C8_witness :
    lmResp200.status = 200
    ∧ (pyContains (lowerStr lmResp200.contentType) "xml" = true ∨
        pyContains (lowerStr lmResp200.contentType) "rss" = true)
    ∧ lmResp200.lastModified = some "Tue, 01 Jan 2024 00:00:00 GMT"
    ∧ lmResp304.status = 304
    ∧ (fetch_feed [] "http://feed" (some lmResp200)).state
        = setLastModified [] "http://feed" "Tue, 01 Jan 2024 00:00:00 GMT"
    ∧ (fetch_feed (fetch_feed [] "http://feed" (some lmResp200)).state "http://feed"
        (some lmResp304)).ifModifiedSinceSent = some "Tue, 01 Jan 2024 00:00:00 GMT"
    ∧ (fetch_feed (fetch_feed [] "http://feed" (some lmResp200)).state "http://feed"
        (some lmResp304)).outcome = FeedOutcome.notModified := by
  refine ⟨rfl, Or.inl (by decide), rfl, rfl, ?_, ?_, ?_⟩
  · exact (C8_conditional_cache [] "http://feed" "Tue, 01 Jan 2024 00:00:00 GMT" lmResp200
      rfl (Or.inl (by decide)) rfl (by decide)).1
  · exact ((C8_conditional_cache [] "http://feed" "Tue, 01 Jan 2024 00:00:00 GMT" lmResp200
      rfl (Or.inl (by decide)) rfl (by decide)).2.2 lmResp304 rfl).1
  · exact ((C8_conditional_cache [] "http://feed" "Tue, 01 Jan 2024 00:00:00 GMT" lmResp200
      rfl (Or.inl (by decide)) rfl (by decide)).2.2 lmResp304 rfl).2.1

/-- C10 counterexample: `_normalized_url` is not idempotent —
`https://////` normalizes to `https:////`, which normalizes again to
`https://`, a different string. -/
theorem C10_counterexample :
    normalized_url "https://////" = "https:////"
    ∧ normalized_url "https:////" = "https://"
    ∧ normalized_url (normalized_url "https://////") ≠ normalized_url "https://////" := by
  decide

/-- C10 (amended): normalization is idempotent for every URL whose parse
does not land in the degenerate corner of an empty netloc together with a
path starting `//` (the corner `https://////` exhibits); in particular it
is idempotent whenever the parsed netloc is non-empty or the path does not
begin with two slashes. -/
theorem C10_normalization_idempotent (u : String)
    (h : ¬((urlsplitCore u.data).netloc = [] ∧
        (urlsplitCore u.data).path.take 2 = ['/', '/'])) :
    normalized_url (normalized_url u) = normalized_url u :=
  normalized_url_idem_aux u h

set_option maxRecDepth 8000 in
theorem C10_witness :
    ¬((urlsplitCore "http://example.com/a?q=1".data).netloc = [] ∧
        (urlsplitCore "http://example.com/a?q=1".data).path.take 2 = ['/', '/'])
    ∧ normalized_url (normalized_url "http://example.com/a?q=1")
        = normalized_url "http://example.com/a?q=1" :=
  ⟨by decide, C10_normalization_idempotent "http://example.com/a?q=1" (by decide)⟩

end News
